import Mathlib

/-!
Verification of the pigeon email library (github.com/dotarpa/pigeon).

The Go sources are shallowly embedded: Go strings and `[]byte` values are
modelled as `List Nat` of octets (every entry < 256 where it matters),
maps with `Set`/`Get` (textproto.MIMEHeader) as association lists with
canonicalised keys, and external collaborators (text/template execution,
net/mail parsing, the SMTP relay, the clock, the filesystem) as explicit
oracle parameters.  Functions keep the names they have in the source
(email.go, internal/tpl/template.go) wherever Lean allows it.
-/

namespace Pigeon

/-- Octets of an ASCII string literal, used to write concrete byte-level
inputs. -/
def strBytes (s : String) : List Nat := s.toList.map Char.toNat

/-- `isASCII` from email.go: true iff no byte of the string exceeds 127. -/
def isASCII (s : List Nat) : Bool := s.all (fun b => decide (b ≤ 127))

/-- `strings.Split(text, "\n")` at byte level: the segments of `s` separated
by LF (10); a trailing LF yields a final empty segment, and the empty string
yields one empty segment, as in Go. -/
def splitLines (s : List Nat) : List (List Nat) :=
  match s with
  | [] => [[]]
  | b :: rest =>
    if b = 10 then [] :: splitLines rest
    else
      match splitLines rest with
      | [] => [[b]]
      | l :: ls => (b :: l) :: ls

/-- `hasLongLines` from email.go: some LF-separated line is longer than 76
octets (`maxContentLength`). -/
def hasLongLines (s : List Nat) : Bool :=
  (splitLines s).any (fun l => decide (76 < l.length))

/-! ### The quoted-printable writer (Go `mime/quotedprintable.Writer`)

`writeTextPart` and `encodingUTF8Subject` in email.go delegate to
`quotedprintable.NewWriter`.  The writer is a byte-at-a-time state machine:
a pending output line of at most 75 content bytes plus a `cr` flag.  We
model completed lines (each implicitly followed by CRLF on the wire) in
`lines` and the pending line in `cur`. -/

structure QPState where
  lines : List (List Nat)
  cur   : List Nat
  cr    : Bool
  deriving Repr, DecidableEq

/-- The byte for a hex nibble, Go's `upperhex[n]`. -/
def hexDigit (n : Nat) : Nat := (strBytes "0123456789ABCDEF").getD n 48

/-- `insertSoftLineBreak`: terminate the pending line with `=` (61) and an
implicit CRLF. -/
def qpSoftBreak (st : QPState) : QPState :=
  { st with lines := st.lines ++ [st.cur ++ [61]], cur := [] }

/-- `insertCRLF` followed by `flush`: terminate the pending line with a hard
CRLF. -/
def qpInsertCRLF (st : QPState) : QPState :=
  { st with lines := st.lines ++ [st.cur], cur := [] }

/-- `Writer.encode`: append `=XX`, soft-breaking first when fewer than three
columns remain (`lineMaxLen-1 - w.i < 3` with `lineMaxLen = 76`). -/
def qpEncodeByte (st : QPState) (b : Nat) : QPState :=
  let st1 := if 75 - st.cur.length < 3 then qpSoftBreak st else st
  { st1 with cur := st1.cur ++ [61, hexDigit (b / 16), hexDigit (b % 16)] }

/-- `Writer.checkLastByte`: a pending trailing space or tab is re-emitted in
encoded form before a line ends. -/
def qpCheckLastByte (st : QPState) : QPState :=
  match st.cur.getLast? with
  | some b =>
    if b = 32 ∨ b = 9 then qpEncodeByte { st with cur := st.cur.dropLast } b
    else st
  | none => st

/-- One input byte of `Writer.Write`/`Writer.write` (non-binary mode):
LF/CR handling with CRLF coalescing, literal printable bytes and
whitespace with the 76-column soft break, `=XX` for everything else. -/
def qpStep (st : QPState) (b : Nat) : QPState :=
  if b = 10 ∨ b = 13 then
    if st.cr ∧ b = 10 then { st with cr := false }
    else
      qpInsertCRLF (qpCheckLastByte { st with cr := b = 13 })
  else if (33 ≤ b ∧ b ≤ 126 ∧ b ≠ 61) ∨ b = 32 ∨ b = 9 then
    let st1 := if st.cur.length = 75 then qpSoftBreak st else st
    { st1 with cur := st1.cur ++ [b], cr := false }
  else
    qpEncodeByte st b

def qpInit : QPState := ⟨[], [], false⟩

/-- The writer state after writing all of `s` and calling `Close`
(which runs `checkLastByte` and flushes the pending line without CRLF). -/
def qpFinal (s : List Nat) : QPState := qpCheckLastByte (s.foldl qpStep qpInit)

/-- Serialise a writer state: every completed line followed by CRLF, then
the pending bytes. -/
def qpRender (st : QPState) : List Nat :=
  (st.lines.map (fun l => l ++ [13, 10])).flatten ++ st.cur

/-- The full quoted-printable encoding of `s`, as written by
`quotedprintable.NewWriter(w).Write(s); Close()`. -/
def qpEncode (s : List Nat) : List Nat := qpRender (qpFinal s)

/-- The physical output lines of the quoted-printable encoding (the final,
unterminated line included). -/
def qpEncodeLines (s : List Nat) : List (List Nat) :=
  (qpFinal s).lines ++ [(qpFinal s).cur]

/-- Value of a hex digit byte. -/
def hexVal (c : Nat) : Nat :=
  if 48 ≤ c ∧ c ≤ 57 then c - 48
  else if 65 ≤ c ∧ c ≤ 70 then c - 55
  else 0

/-- Standard quoted-printable decoding: `=CRLF` is a soft break, `=XX` is an
escaped byte, everything else is literal. -/
def qpDecode : List Nat → List Nat
  | [] => []
  | b :: rest =>
    if b = 61 then
      match rest with
      | h :: l :: rest2 =>
        if h = 13 ∧ l = 10 then qpDecode rest2
        else (hexVal h * 16 + hexVal l) :: qpDecode rest2
      | [x] => [b, x]
      | [] => [b]
    else b :: qpDecode rest

/-- Newline normalisation performed by the quoted-printable writer on
CR-free input: each LF becomes CRLF. -/
def lfToCrlf (s : List Nat) : List Nat :=
  s.flatMap (fun b => if b = 10 then [13, 10] else [b])

/-- `writeTextPart` from email.go, reduced to its encoding decision: the
content-transfer-encoding chosen for the rendered body and the bytes put on
the wire for it.  (`!isASCII(body) || hasLongLines(body)` selects
quoted-printable, otherwise the body is written unmodified with 7bit.) -/
def writeTextPart (body : List Nat) : String × List Nat :=
  if !(isASCII body) || hasLongLines body then ("quoted-printable", qpEncode body)
  else ("7bit", body)

/-! ### Base64 attachment encoding (email.go `encodeAndWrapBase64`)

`addAttachmentPart` base64-encodes the file bytes in 57-byte chunks
(`line/4*3` with `line = 76`), emitting one base64 line plus CRLF per
chunk.  `encoding/base64.StdEncoding` is embedded directly. -/

/-- Byte `i` of the standard base64 alphabet. -/
def b64Byte (i : Nat) : Nat :=
  (strBytes "ABCDEFGHIJKLMNOPQRSTUVWXYZabcdefghijklmnopqrstuvwxyz0123456789+/").getD i 65

/-- `base64.StdEncoding.EncodeToString`: 3-byte groups to 4 alphabet bytes,
with `=` (61) padding for a short final group. -/
def b64EncodeGroups : List Nat → List Nat
  | x :: y :: z :: rest =>
    b64Byte (x / 4) :: b64Byte (x % 4 * 16 + y / 16) ::
      b64Byte (y % 16 * 4 + z / 64) :: b64Byte (z % 64) :: b64EncodeGroups rest
  | [x, y] => [b64Byte (x / 4), b64Byte (x % 4 * 16 + y / 16), b64Byte (y % 16 * 4), 61]
  | [x] => [b64Byte (x / 4), b64Byte (x % 4 * 16), 61, 61]
  | [] => []

/-- Value of a base64 alphabet byte. -/
def b64Val (c : Nat) : Nat :=
  if 65 ≤ c ∧ c ≤ 90 then c - 65
  else if 97 ≤ c ∧ c ≤ 122 then c - 97 + 26
  else if 48 ≤ c ∧ c ≤ 57 then c - 48 + 52
  else if c = 43 then 62
  else if c = 47 then 63
  else 0

/-- Standard base64 decoding of 4-byte groups, honouring `=` padding. -/
def b64DecodeGroups : List Nat → List Nat
  | a :: b :: c :: d :: rest =>
    if c = 61 then [b64Val a * 4 + b64Val b / 16]
    else if d = 61 then
      [b64Val a * 4 + b64Val b / 16, b64Val b % 16 * 16 + b64Val c / 4]
    else
      (b64Val a * 4 + b64Val b / 16) ::
        (b64Val b % 16 * 16 + b64Val c / 4) ::
        (b64Val c % 4 * 64 + b64Val d) :: b64DecodeGroups rest
  | _ => []

/-- The chunking loop of `encodeAndWrapBase64`, with the input length as
structural fuel (each round consumes 57 > 0 bytes, so `b.length` rounds
always suffice). -/
def encodeAndWrapBase64Go : Nat → List Nat → List (List Nat)
  | _, [] => []
  | 0, _ => []
  | fuel + 1, b => b64EncodeGroups (b.take 57) :: encodeAndWrapBase64Go fuel (b.drop 57)

/-- `encodeAndWrapBase64` from email.go, as the list of base64 lines it
writes (each followed on the wire by CRLF): the input is consumed in
chunks of `76/4*3 = 57` bytes, each encoded with `StdEncoding`. -/
def encodeAndWrapBase64 (b : List Nat) : List (List Nat) :=
  encodeAndWrapBase64Go b.length b

/-- The attachment part payload written by `encodeAndWrapBase64`:
the base64 lines joined with CRLF terminators. -/
def base64PartContent (b : List Nat) : List Nat :=
  ((encodeAndWrapBase64 b).map (fun l => l ++ [13, 10])).flatten

/-- Base64 decoding of a wrapped payload: line breaks are dropped, then the
4-byte groups are decoded. -/
def b64DecodePayload (p : List Nat) : List Nat :=
  b64DecodeGroups (p.filter (fun c => decide (c ≠ 13) && decide (c ≠ 10)))

/-! ### Subject encoding (email.go `encodingUTF8Subject`) -/

/-- `strings.ReplaceAll(s, "\r\n", "")`: remove CRLF pairs left to right. -/
def stripCRLF : List Nat → List Nat
  | [] => []
  | [b] => [b]
  | b :: c :: rest =>
    if b = 13 ∧ c = 10 then stripCRLF rest
    else b :: stripCRLF (c :: rest)

/-- `strings.ReplaceAll(s, "=", "=3D")`: every `=` (61) becomes `=3D`
(61, 51, 68). -/
def escapeEquals : List Nat → List Nat
  | [] => []
  | b :: rest =>
    if b = 61 then 61 :: 51 :: 68 :: escapeEquals rest
    else b :: escapeEquals rest

/-- `encodingUTF8Subject` from email.go: an all-ASCII subject passes through
unchanged; otherwise the subject is quoted-printable encoded, CRLF pairs the
encoder inserted are removed, every `=` is replaced by `=3D`, and the result
is wrapped as an RFC 2047 Q encoded-word. -/
def encodingUTF8Subject (s : List Nat) : List Nat :=
  if isASCII s then s
  else strBytes "=?UTF-8?Q?" ++ escapeEquals (stripCRLF (qpEncode s)) ++ strBytes "?="

/-! ### Header folding (email.go `writeHeaders`)

A header `k: v` longer than 78 octets (`maxLineLength`) is folded: the code
scans from the last admissible column down to just past half the remaining
width for a space or semicolon, breaks after it, and otherwise hard-breaks
at the width boundary; continuation lines are indented with one space. -/

/-- The downward scan of `writeHeaders`: `breakPoint` starts at `available`
(the hard-break fallback) and the loop runs from column `i` down while
`i > half` and `i < rem.length`, stopping at the first space (32) or
semicolon (59) and breaking just after it. -/
def findBreakAux (rem : List Nat) (half avail : Nat) : Nat → Nat
  | 0 => avail
  | j + 1 =>
    if half < j + 1 ∧ j + 1 < rem.length then
      if rem.getD (j + 1) 0 = 32 ∨ rem.getD (j + 1) 0 = 59 then j + 2
      else findBreakAux rem half avail j
    else avail

/-- The break point chosen by `writeHeaders` for a segment of width
`available`: the scan starts at `available - 1` with `half = available/2`. -/
def findBreak (available : Nat) (rem : List Nat) : Nat :=
  findBreakAux rem (available / 2) available (available - 1)

/-- The continuation-line loop of `writeHeaders`, with the remaining length
as structural fuel (every break point is at least 1, so `rem.length` rounds
always suffice): after the first fold the width is always `78 - 1 = 77`
(one column is the continuation space). -/
def foldLoop77Go : Nat → List Nat → List (List Nat)
  | 0, rem => [rem]
  | fuel + 1, rem =>
    if rem.length ≤ 77 then [rem]
    else
      rem.take (findBreak 77 rem) :: foldLoop77Go fuel (rem.drop (findBreak 77 rem))

def foldLoop77 (rem : List Nat) : List (List Nat) :=
  foldLoop77Go rem.length rem

/-- The physical lines `writeHeaders` emits for one header `k: v`: a short
line passes through; a long one is folded, each continuation line starting
with a space (32).  When `len(k)+2` already reaches the 78 limit the Go code
finds `available ≤ 0` and emits the bare `k: ` prefix as its own line. -/
def foldHeaderValue (k v : List Nat) : List (List Nat) :=
  let line := k ++ [58, 32] ++ v
  if line.length ≤ 78 then [line]
  else
    let lineLen := k.length + 2
    if 78 ≤ lineLen then
      (k ++ [58, 32]) :: (foldLoop77 v).map (fun l => 32 :: l)
    else
      let available := 78 - lineLen
      if v.length ≤ available then [k ++ [58, 32] ++ v]
      else
        (k ++ [58, 32] ++ v.take (findBreak available v)) ::
          (foldLoop77 (v.drop (findBreak available v))).map (fun l => 32 :: l)

/-- Modelled from the spec: the folding rule as clause 4.2.7 of the spec
words it — "break at the nearest preceding space or semicolon within the
allowed width ...; if no good break point exists, hard-break at the width
boundary".  The scan is over the whole allowed width, not just its upper
half.  Used only to compare the code against the spec's folding rule. -/
def specFindBreakAux (rem : List Nat) (avail : Nat) : Nat → Nat
  | 0 =>
    if 0 < rem.length ∧ (rem.getD 0 0 = 32 ∨ rem.getD 0 0 = 59) then 1 else avail
  | j + 1 =>
    if j + 1 < rem.length ∧ (rem.getD (j + 1) 0 = 32 ∨ rem.getD (j + 1) 0 = 59) then
      j + 2
    else specFindBreakAux rem avail j

/-- Modelled from the spec: break point for a segment of width `available`
under the spec's rule — the nearest preceding space or semicolon anywhere
within the allowed width, hard break at the boundary only if none exists. -/
def specFindBreak (available : Nat) (rem : List Nat) : Nat :=
  specFindBreakAux rem available (available - 1)

/-- Modelled from the spec: continuation-line folding under the spec's
break rule (width 77 after the indent space), with the same structural
fuel scheme as `foldLoop77Go`. -/
def specFoldLoop77Go : Nat → List Nat → List (List Nat)
  | 0, rem => [rem]
  | fuel + 1, rem =>
    if rem.length ≤ 77 then [rem]
    else
      rem.take (specFindBreak 77 rem) ::
        specFoldLoop77Go fuel (rem.drop (specFindBreak 77 rem))

def specFoldLoop77 (rem : List Nat) : List (List Nat) :=
  specFoldLoop77Go rem.length rem

/-- Modelled from the spec: the lines clause 4.2.7 predicts for one header
`k: v` (same shape as the code, with the spec's whole-width break scan). -/
def specFoldHeaderValue (k v : List Nat) : List (List Nat) :=
  let line := k ++ [58, 32] ++ v
  if line.length ≤ 78 then [line]
  else
    let available := 78 - (k.length + 2)
    if v.length ≤ available then [k ++ [58, 32] ++ v]
    else
      (k ++ [58, 32] ++ v.take (specFindBreak available v)) ::
        (specFoldLoop77 (v.drop (specFindBreak available v))).map (fun l => 32 :: l)

/-! ### The `Send` pipeline (email.go)

`Send` is embedded at the level of header resolution, message structure and
the SMTP command trace.  External collaborators become parameters:

* `parsed` — the result of `tpl.ParseFile(cfg.TemplatePath)` (filesystem +
  parser);
* `rend`   — `template.New(..).Parse(field)` followed by `Execute(data)`
  for one header field against the fixed call-wide `data`;
* `subjEnc` — `encodingUTF8Subject` (verified separately at byte level);
* `bodyOut`/`bodyErr` — what `t.Execute(buf, data)` writes and whether it
  returns an error (deterministic for fixed template and data; on error
  `writeTextPart` writes nothing to the part);
* `date`, `boundary` — clock-derived strings;
* `fs`     — `os.ReadFile`;
* `server` — the SMTP relay's verdicts on each command.
-/

/-- `textproto.CanonicalMIMEHeaderKey`: valid token byte check. -/
def validHeaderFieldChar (n : Nat) : Bool :=
  decide ((48 ≤ n ∧ n ≤ 57) ∨ (65 ≤ n ∧ n ≤ 90) ∨ (97 ≤ n ∧ n ≤ 122)) ||
    decide (n ∈ [33, 35, 36, 37, 38, 39, 42, 43, 45, 46, 94, 95, 96, 124, 126])

/-- Case normalisation of `CanonicalMIMEHeaderKey`: uppercase the first
letter and each letter after a hyphen, lowercase the rest. -/
def canonCase : Bool → List Char → List Char
  | _, [] => []
  | upper, c :: rest =>
    let c2 := if upper then c.toUpper else c.toLower
    c2 :: canonCase (c2 = '-') rest

/-- `textproto.CanonicalMIMEHeaderKey`: keys containing an invalid byte are
returned unchanged, otherwise the case pattern is normalised. -/
def canonicalKey (s : String) : String :=
  if s.toList.all (fun c => validHeaderFieldChar c.toNat) then
    String.mk (canonCase true s.toList)
  else s

/-- `textproto.MIMEHeader` restricted to single-valued entries, as `Send`
uses it: an association list keyed by canonical names. -/
abbrev MimeHdr := List (String × String)

/-- `MIMEHeader.Set`: replace the entry for the canonical key, or add it. -/
def hSet (h : MimeHdr) (k v : String) : MimeHdr :=
  let ck := canonicalKey k
  if h.any (fun p => p.1 = ck) then
    h.map (fun p => if p.1 = ck then (ck, v) else p)
  else h ++ [(ck, v)]

/-- `MIMEHeader.Get`: the stored value for the canonical key, or "". -/
def hGet (h : MimeHdr) (k : String) : String :=
  match h.find? (fun p => p.1 = canonicalKey k) with
  | some p => p.2
  | none => ""

/-- The header accessors of a parsed template (`tpl.Template`): `From()`,
`To()`, `Cc()`, `Bcc()`, `Subject()` on the template's header block. -/
structure Tpl where
  tFrom : String
  tTo : String
  tCc : String
  tBcc : String
  tSubject : String
  deriving DecidableEq

structure HostPort where
  Host : String
  Port : String
  deriving DecidableEq

/-- The fields of `EmailConfig` (config.go) that `Send` reads. -/
structure EmailConfig where
  From : String
  To : String
  Cc : String
  Bcc : String
  Hello : String
  Smarthost : HostPort
  Headers : List (String × String)
  Timezone : String
  Attachments : List String
  TemplatePath : String
  deriving DecidableEq

/-- `chooseNonEmpty` from email.go. -/
def chooseNonEmpty (a b : String) : String := if a ≠ "" then a else b

/-- `strings.Split(s, sep)` for a one-character separator, over the
character list (structural, so that concrete runs evaluate). -/
def splitCharList (sep : Char) : List Char → List (List Char)
  | [] => [[]]
  | c :: rest =>
    if c = sep then [] :: splitCharList sep rest
    else
      match splitCharList sep rest with
      | [] => [[c]]
      | l :: ls => (c :: l) :: ls

/-- `strings.Split` on a string value. -/
def splitStr (sep : Char) (s : String) : List String :=
  (splitCharList sep s.toList).map String.mk

/-- `strings.TrimSpace`: leading and trailing whitespace removed. -/
def trimSpace (s : String) : String :=
  String.mk (((s.toList.dropWhile Char.isWhitespace).reverse.dropWhile
    Char.isWhitespace).reverse)

/-- `isASCII` applied to a Go string value, character-wise (a string has a
byte above 127 exactly when it has a character above 127). -/
def isASCIIStr (s : String) : Bool := s.toList.all (fun c => decide (c.toNat ≤ 127))

/-- `hasLongLines` applied to a Go string value.  (Inside `Send` this only
decides the encoding when the body is all ASCII, where character count and
octet count agree.) -/
def hasLongLinesStr (s : String) : Bool :=
  (splitStr (Char.ofNat 10) s).any (fun l => decide (76 < l.length))

/-- The body of the message as assembled by `Send`: the final header map,
the transfer encoding chosen for the text part, what the text part carries
(empty when body execution failed — `writeTextPart` returns before writing
and `Send` drops its error), and the attachment parts in order. -/
structure BuiltMsg where
  hdr : MimeHdr
  textCTE : String
  textWritten : String
  parts : List (String × List Nat)
  deriving DecidableEq

/-- One SMTP command issued by `Send`/`SendRaw` after connecting. -/
inductive SmtpCmd where
  | helo (name : String)
  | mailFrom (addr : String)
  | rcptTo (addr : String)
  | dataMsg (m : BuiltMsg)
  | dataRaw
  deriving DecidableEq

/-- The relay's behaviour, one verdict per protocol step. -/
structure SmtpServer where
  dialOk : Bool
  clientOk : Bool
  mailOk : String → Bool
  rcptOk : String → Bool
  dataOk : Bool
  writeOk : Bool
  closeOk : Bool

/-- Outcome of `Send`: the `(retry, err)` pair and the SMTP commands issued. -/
structure SendResult where
  retry : Bool
  err : Option String
  cmds : List SmtpCmd
  deriving DecidableEq

/-- The custom-header merge of `Send`: each configured header with a
non-empty value is `Set` into the map (empty values are skipped). -/
def mergeHeaders (h : MimeHdr) (L : List (String × String)) : MimeHdr :=
  L.foldl (fun h kv => if kv.2 = "" then h else hSet h kv.1 kv.2) h

/-- The attachment loop of `Send`: each path is read with `os.ReadFile`
(`addAttachmentPart`); the first failure aborts the whole build. -/
def readAttachments (fs : String → Except String (List Nat)) :
    List String → Except String (List (String × List Nat))
  | [] => .ok []
  | p :: rest =>
    match fs p with
    | .error e => .error e
    | .ok bytes =>
      match readAttachments fs rest with
      | .error e => .error e
      | .ok others => .ok ((p, bytes) :: others)

/-- The Cc/Bcc handling of `Send`: a non-empty source (template header,
else configuration) is rendered as its own template; a render failure
aborts, and a non-empty rendered value is `Set` under `name`. -/
def resolveOptional (rend : String → Except String String) (name tmpl : String)
    (hdr : MimeHdr) : Except String MimeHdr :=
  if tmpl ≠ "" then
    match rend tmpl with
    | .error e => .error e
    | .ok v => .ok (if v ≠ "" then hSet hdr name v else hdr)
  else .ok hdr

/-- The message-construction phase of `Send` (everything before dialling):
resolves From/To/Cc/Bcc with template priority and per-field template
rendering, Subject (template only, `"(no subject)"` default), sets
MIME-Version and Date, merges the custom headers skipping empty values,
chooses the text-part encoding, and reads the attachments.  Returns the
resolved sender (used for MAIL FROM) and the assembled message; every
error here makes `Send` return `(false, err)` before any network use. -/
def buildMessage (cfg : EmailConfig) (parsed : Except String Tpl)
    (rend : String → Except String String) (subjEnc : String → String)
    (boundary : String) (bodyOut : String) (bodyErr : Option String)
    (date : String) (fs : String → Except String (List Nat)) :
    Except String (String × BuiltMsg) :=
  if cfg.TemplatePath = "" then .error "TemplatePath must be specified"
  else if cfg.Smarthost.Host = "" ∧ cfg.Smarthost.Port = "" then
    .error "smarthost must be specified"
  else
    match parsed with
    | .error e => .error e
    | .ok t =>
      if chooseNonEmpty t.tFrom cfg.From = "" then .error "missing From address"
      else
        match rend (chooseNonEmpty t.tFrom cfg.From) with
        | .error e => .error e
        | .ok fromV =>
          if chooseNonEmpty t.tTo cfg.To = "" then .error "missing To address"
          else
            match rend (chooseNonEmpty t.tTo cfg.To) with
            | .error e => .error e
            | .ok toV =>
              match resolveOptional rend "Cc" (chooseNonEmpty t.tCc cfg.Cc)
                  (hSet (hSet [] "From" fromV) "To" toV) with
              | .error e => .error e
              | .ok hdr3 =>
                match resolveOptional rend "Bcc" (chooseNonEmpty t.tBcc cfg.Bcc) hdr3 with
                | .error e => .error e
                | .ok hdr4 =>
                  match rend (if t.tSubject = "" then "(no subject)" else t.tSubject) with
                  | .error e => .error e
                  | .ok subjV =>
                    let hdr7 := hSet (hSet (hSet hdr4 "Subject" (subjEnc subjV))
                      "MIME-Version" "1.0") "Date" date
                    let hdr8 := mergeHeaders hdr7 cfg.Headers
                    let cte := if isASCIIStr bodyOut && !(hasLongLinesStr bodyOut)
                      then "7bit" else "quoted-printable"
                    let written := if bodyErr = none then bodyOut else ""
                    if cfg.Attachments = [] then
                      .ok (fromV, ⟨hSet (hSet hdr8 "Content-Type" "text/plain; charset=UTF-8")
                        "Content-Transfer-Encoding" cte, cte, written, []⟩)
                    else
                      match readAttachments fs cfg.Attachments with
                      | .error e => .error e
                      | .ok parts =>
                        .ok (fromV, ⟨hSet hdr8 "Content-Type"
                          ("multipart/mixed; boundary=" ++ boundary), cte, written, parts⟩)

/-- `recipients` from email.go: To, Cc, Bcc values split on commas, each
entry trimmed, empties dropped. -/
def recipients (h : MimeHdr) : List String :=
  (["To", "Cc", "Bcc"].map
    (fun f => ((splitStr ',' (hGet h f)).map trimSpace).filter
      (fun a => decide (a ≠ "")))).flatten

/-- The RCPT TO loop of `Send`: commands issued until the first rejection;
`inl` carries the trace of a rejected run, `inr` a fully accepted one. -/
def rcptLoop (server : SmtpServer) : List String → Sum (List SmtpCmd) (List SmtpCmd)
  | [] => .inr []
  | r :: rest =>
    if server.rcptOk r then
      match rcptLoop server rest with
      | .inl c => .inl (.rcptTo r :: c)
      | .inr c => .inr (.rcptTo r :: c)
    else .inl [.rcptTo r]

/-- The delivery phase of `Send`: dial and client construction failures are
retryable; HELO failure is ignored; MAIL FROM and RCPT TO rejections are
permanent (a RCPT rejection aborts the remaining recipients); DATA open,
write and close failures are retryable; a full cycle returns
`(false, nil)`. -/
def smtpPhase (server : SmtpServer) (cfg : EmailConfig) (fromV : String)
    (rcpts : List String) (built : BuiltMsg) : SendResult :=
  if !server.dialOk then ⟨true, some "dial failed", []⟩
  else if !server.clientOk then ⟨true, some "client failed", []⟩
  else
    let heloCmds : List SmtpCmd := if cfg.Hello ≠ "" then [.helo cfg.Hello] else []
    if !server.mailOk fromV then ⟨false, some "MAIL FROM rejected", heloCmds ++ [.mailFrom fromV]⟩
    else
      match rcptLoop server rcpts with
      | .inl partial0 =>
        ⟨false, some "RCPT rejected", heloCmds ++ [.mailFrom fromV] ++ partial0⟩
      | .inr accepted =>
        let pre := heloCmds ++ [.mailFrom fromV] ++ accepted
        if !server.dataOk then ⟨true, some "DATA failed", pre⟩
        else if !server.writeOk then ⟨true, some "write failed", pre ++ [.dataMsg built]⟩
        else if !server.closeOk then ⟨true, some "close failed", pre ++ [.dataMsg built]⟩
        else ⟨false, none, pre ++ [.dataMsg built]⟩

/-- `Send` from email.go: build, then deliver.  Build errors return
`(false, err)` with no SMTP activity. -/
def Send (cfg : EmailConfig) (parsed : Except String Tpl)
    (rend : String → Except String String) (subjEnc : String → String)
    (boundary : String) (bodyOut : String) (bodyErr : Option String)
    (date : String) (fs : String → Except String (List Nat))
    (server : SmtpServer) : SendResult :=
  match buildMessage cfg parsed rend subjEnc boundary bodyOut bodyErr date fs with
  | .error e => ⟨false, some e, []⟩
  | .ok (fromV, built) => smtpPhase server cfg fromV (recipients built.hdr) built

/-! ### `SendRaw` (email.go)

`SendRaw` parses only the header block of the input, extracts bare
addresses for MAIL FROM / RCPT TO, and then copies the rest of the
buffered reader through the DATA phase.  `mail.ParseAddress` and
`mail.ParseAddressList` (net/mail) are oracles `pa`/`pal`; the regex and
string fallbacks of `extractAddr`/`parseAddressList` are embedded. -/

/-- The characters before the first `>` of a list, if any `>` occurs. -/
def takeBeforeGt : List Char → Option (List Char)
  | [] => none
  | c :: rest =>
    if c = '>' then some []
    else (takeBeforeGt rest).map (fun l => c :: l)

/-- The regexp fallback of `extractAddr`: the capture of the leftmost match
of the pattern "angle bracket, one or more non-gt characters, gt". -/
def extractAngle : List Char → Option String
  | [] => none
  | c :: rest =>
    if c = '<' then
      match takeBeforeGt rest with
      | some content =>
        if content ≠ [] then some (String.mk content) else extractAngle rest
      | none => extractAngle rest
    else extractAngle rest

/-- `extractAddr` from email.go: `mail.ParseAddress` (oracle `pa`) first,
then the angle-bracket regexp, then the trimmed string itself when it
contains `@`; otherwise failure. -/
def extractAddr (pa : String → Option String) (addr : String) : Option String :=
  match pa addr with
  | some a => some a
  | none =>
    match extractAngle addr.toList with
    | some m => some m
    | none =>
      let t := trimSpace addr
      if t.toList.contains '@' then some t else none

/-- `parseAddressList` from email.go: an empty value yields nothing;
`mail.ParseAddressList` (oracle `pal`) gives the address parts when it
succeeds, otherwise the value is split on commas, trimmed, empties
dropped. -/
def parseAddressList (pal : String → Option (List String)) (list : String) : List String :=
  if list = "" then []
  else
    match pal list with
    | some out => out
    | none => ((splitStr ',' list).map trimSpace).filter (fun s => decide (s ≠ ""))

/-- The RCPT loop of `SendRaw`: entries whose address cannot be extracted
are skipped silently, duplicates (by extracted address) are skipped, a
relay rejection aborts with an error; `uniq` records already-issued
addresses. -/
def rawRcptLoop (pa : String → Option String) (server : SmtpServer)
    (uniq : List String) : List String → Except String (List SmtpCmd)
  | [] => .ok []
  | rcpt :: rest =>
    match extractAddr pa rcpt with
    | none => rawRcptLoop pa server uniq rest
    | some a =>
      if a ∈ uniq then rawRcptLoop pa server uniq rest
      else if server.rcptOk a then
        match rawRcptLoop pa server (a :: uniq) rest with
        | .ok c => .ok (.rcptTo a :: c)
        | .error e => .error e
      else .error ("RCPT TO failed for " ++ a)

/-- The control flow of `SendRaw` over an already-parsed header block:
missing From and an empty pre-extraction recipient list are permanent
errors raised before any network activity; then MAIL FROM, the RCPT loop,
and the DATA phase.  Returns the command trace on success. -/
def SendRawModel (pal : String → Option (List String)) (pa : String → Option String)
    (server : SmtpServer) (headers : MimeHdr) : Except String (List SmtpCmd) :=
  if hGet headers "From" = "" then .error "missing from address"
  else
    let toAll := parseAddressList pal (hGet headers "To") ++
      parseAddressList pal (hGet headers "Cc") ++ parseAddressList pal (hGet headers "Bcc")
    if toAll = [] then .error "no recipients found in To/Cc/Bcc"
    else if !server.dialOk then .error "failed to dial smtp"
    else if !server.clientOk then .error "smtp.NewClient failed"
    else
      match extractAddr pa (hGet headers "From") with
      | none => .error "parse From failed"
      | some addrFrom =>
        if !server.mailOk addrFrom then .error "MAIL FROM failed"
        else
          match rawRcptLoop pa server [] toAll with
          | .error e => .error e
          | .ok rcptCmds =>
            if !server.dataOk then .error "SMTP DATA failed"
            else .ok (SmtpCmd.mailFrom addrFrom :: rcptCmds ++ [SmtpCmd.dataRaw])

/-- The line scan of `textproto.ReadMIMEHeader` up to the terminating blank
line, as a byte-wise state machine: `st = 0` while the current header line
is still empty, `st = 1` when it holds exactly a CR, `st = 2` otherwise; an
LF ending an empty or CR-only line terminates the header block, and the
rest of the input is the unconsumed remainder. -/
def afterHeaderBlockGo : Nat → List Nat → Option (List Nat)
  | _, [] => none
  | st, b :: rest =>
    if b = 10 then
      if st = 0 ∨ st = 1 then some rest else afterHeaderBlockGo 0 rest
    else
      afterHeaderBlockGo (if b = 13 ∧ st = 0 then 1 else 2) rest

/-- What `textproto.ReadMIMEHeader` leaves unconsumed in the buffered
reader: the bytes after the first blank line (a lone LF or CRLF). -/
def afterHeaderBlock (s : List Nat) : Option (List Nat) :=
  afterHeaderBlockGo 0 s

/-- The bytes `SendRaw` writes during the DATA phase, for an input that
fits in one `bufio` buffer fill (the default buffer is 4096 bytes and the
common raw sources — `bytes.Reader`, `os.File` — deliver such an input in
one `Read`): after `ReadMIMEHeader` the buffered reader holds exactly the
bytes after the header block; the `Seek(0, SeekStart)` performed for
seekable inputs rewinds the underlying reader but not the buffer, so
`io.Copy(wc, tp.R)` first drains the buffered remainder and then, for a
seekable input, reads the whole input again from the start. -/
def sendRawDataStream (seekable : Bool) (raw : List Nat) : Option (List Nat) :=
  (afterHeaderBlock raw).map (fun body => body ++ (if seekable then raw else []))

/-! ### Derived views and invariant predicates used by the theorems -/

/-- A MIME part of the assembled message, as a structural view. -/
inductive MimePart where
  | text (cte : String) (content : String)
  | attachment (path : String) (bytes : List Nat)
  deriving DecidableEq

/-- The parts of the multipart/mixed message `Send` assembles: one text
part first, then one part per attachment in loop order. -/
def msgParts (b : BuiltMsg) : List MimePart :=
  .text b.textCTE b.textWritten :: b.parts.map (fun pb => .attachment pb.1 pb.2)

/-- The messages handed to the DATA phase in a command trace. -/
def sentMessages (cmds : List SmtpCmd) : List BuiltMsg :=
  cmds.filterMap (fun c => match c with | .dataMsg m => some m | _ => none)

/-- The RCPT TO commands in a trace. -/
def rcptCmds (cmds : List SmtpCmd) : List SmtpCmd :=
  cmds.filter (fun c => match c with | .rcptTo _ => true | _ => false)

/-- Every `=` (61) in the list opens a literal `=3D` escape: the property
"no raw `=` outside escape sequences" for an encoded-word payload. -/
def eqAllEscaped : List Nat → Bool
  | [] => true
  | b :: rest =>
    if b = 61 then
      match rest with
      | c :: d :: rest2 => c = 51 && d = 68 && eqAllEscaped rest2
      | _ => false
    else eqAllEscaped rest

/-- An uppercase hex digit byte (as produced by the quoted-printable
encoder). -/
def isHexUpperByte (b : Nat) : Bool :=
  decide ((48 ≤ b ∧ b ≤ 57) ∨ (65 ≤ b ∧ b ≤ 70))

/-- Well-formed quoted-printable output: a concatenation of literal bytes
(never `=`, CR or LF), `=XX` escapes with uppercase hex digits, soft
breaks `=CRLF`, and hard CRLFs.  The writer only ever emits streams of
this shape. -/
inductive QPChunks : List Nat → Prop
  | nil : QPChunks []
  | lit (b : Nat) (rest : List Nat) :
      b ≠ 61 → b ≠ 13 → b ≠ 10 → QPChunks rest → QPChunks (b :: rest)
  | esc (h l : Nat) (rest : List Nat) :
      isHexUpperByte h = true → isHexUpperByte l = true →
      QPChunks rest → QPChunks (61 :: h :: l :: rest)
  | soft (rest : List Nat) : QPChunks rest → QPChunks (61 :: 13 :: 10 :: rest)
  | crlf (rest : List Nat) : QPChunks rest → QPChunks (13 :: 10 :: rest)

/-- The line-geometry invariant of the quoted-printable writer: the pending
line holds at most 75 bytes, completed lines at most 76, and no line
content contains CR or LF. -/
structure QPInv (st : QPState) : Prop where
  curLen : st.cur.length ≤ 75
  linesLen : ∀ l ∈ st.lines, l.length ≤ 76
  curClean : ∀ b ∈ st.cur, b ≠ 13 ∧ b ≠ 10
  linesClean : ∀ l ∈ st.lines, ∀ b ∈ l, b ≠ 13 ∧ b ≠ 10

/-- Template for the C1 instances: non-empty From/To header values. -/
def c1tpl : Tpl := ⟨"a@x.com", "b@x.com", "", "", "S"⟩

/-- Configuration for the C1 witness: both From and To also set. -/
def c1cfg : EmailConfig :=
  ⟨"c@x.com", "d@x.com", "", "", "", ⟨"relay", "25"⟩, [], "", [], "t.tmpl"⟩

/-- Configuration for the C1 counterexample: a custom header named From. -/
def c1cfgOverride : EmailConfig :=
  ⟨"c@x.com", "d@x.com", "", "", "", ⟨"relay", "25"⟩, [("From", "evil@x.com")], "",
    [], "t.tmpl"⟩

def allOkServer : SmtpServer :=
  ⟨true, true, fun _ => true, fun _ => true, true, true, true⟩

/-- Template for the C5 counterexample. -/
def c5tpl : Tpl := ⟨"a@x.com", "b@x.com", "", "", "Hello"⟩

/-- Configuration for the C5 counterexample: a custom header named
Subject. -/
def c5cfg : EmailConfig :=
  ⟨"", "", "", "", "", ⟨"relay", "25"⟩, [("Subject", "HIJACK")], "", [], "t.tmpl"⟩

/-- Template for the C8 witness: three recipients. -/
def c8tpl : Tpl := ⟨"a@x.com", "r1@x, r2@x, r3@x", "", "", "S"⟩

def c8cfg : EmailConfig :=
  ⟨"", "", "", "", "", ⟨"relay", "25"⟩, [], "", [], "t.tmpl"⟩

/-- A relay that rejects exactly the recipient `r2@x`. -/
def c8server : SmtpServer :=
  ⟨true, true, fun _ => true, fun a => decide (a ≠ "r2@x"), true, true, true⟩

/-- Template and configuration for the C4 failing input. -/
def c4tpl : Tpl := ⟨"a@x.com", "b@x.com", "", "", "S"⟩

def c4cfg : EmailConfig :=
  ⟨"", "", "", "", "", ⟨"relay", "25"⟩, [], "", [], "t.tmpl"⟩

/-- Headers for the C10 witness: two recipient entries, neither carrying an
extractable address. -/
def c10hdrs : MimeHdr := [("From", "a@x.com"), ("To", "alice, bob")]

/-- Value for the C6 instances: a space at offset 2, then an unbroken run,
so the only break candidate sits below the upper-half scan window. -/
def c6v : List Nat := strBytes "ab " ++ List.replicate 90 99

/-- Inputs for the C7 witness. -/
def c7tpl : Tpl := ⟨"a@x.com", "b@x.com", "", "", "S"⟩

def c7cfg : EmailConfig :=
  ⟨"", "", "", "", "", ⟨"relay", "25"⟩, [], "", ["a.txt"], "t.tmpl"⟩

def c7fs : String → Except String (List Nat) :=
  fun p => if p = "a.txt" then .ok (strBytes "test attachment file data") else .error "open"

/-! ## Theorems -/


theorem find?_of_not_any (ck : String) (h : MimeHdr)
    (hany : h.any (fun p => p.1 = ck) = false) :
    h.find? (fun p => p.1 = ck) = none := by
  induction h with
  | nil => rfl
  | cons a t ih =>
    simp only [List.any_cons, Bool.or_eq_false_iff] at hany
    simp only [List.find?_cons, hany.1]
    exact ih hany.2

theorem find?_map_replace (ck v : String) (h : MimeHdr)
    (hany : h.any (fun p => p.1 = ck) = true) :
    (h.map (fun p => if p.1 = ck then (ck, v) else p)).find? (fun p => p.1 = ck) =
      some (ck, v) := by
  induction h with
  | nil => exact absurd hany (by simp)
  | cons a t ih =>
    by_cases ha : a.1 = ck
    · simp [List.find?_cons, ha]
    · have hany2 : t.any (fun p => p.1 = ck) = true := by
        simp only [List.any_cons] at hany
        rcases (Bool.or_eq_true _ _).mp hany with h1 | h1
        · exact absurd (by simpa using h1) ha
        · exact h1
      simp [List.find?_cons, ha, ih hany2]

theorem find?_map_replace_ne (ck ck2 v : String) (hne : ck ≠ ck2) (h : MimeHdr) :
    (h.map (fun p => if p.1 = ck then (ck, v) else p)).find? (fun p => p.1 = ck2) =
      h.find? (fun p => p.1 = ck2) := by
  induction h with
  | nil => rfl
  | cons a t ih =>
    by_cases ha : a.1 = ck
    · have h2 : ¬ a.1 = ck2 := by rw [ha]; exact hne
      simp only [List.map_cons, if_pos ha, List.find?_cons]
      simp [hne, h2, ih]
    · simp only [List.map_cons, if_neg ha, List.find?_cons]
      by_cases ha2 : a.1 = ck2
      · simp [ha2]
      · simp [ha2, ih]

theorem hGet_hSet_same (h : MimeHdr) (k v : String) : hGet (hSet h k v) k = v := by
  unfold hGet hSet
  cases hany : h.any (fun p => p.1 = canonicalKey k) with
  | true =>
    simp only [hany, if_true]
    rw [find?_map_replace _ _ _ hany]
  | false =>
    simp only [hany, Bool.false_eq_true, if_false]
    rw [List.find?_append, find?_of_not_any _ h hany]
    simp

theorem hGet_hSet_ne (h : MimeHdr) (k k2 v : String)
    (hne : canonicalKey k ≠ canonicalKey k2) : hGet (hSet h k v) k2 = hGet h k2 := by
  unfold hGet hSet
  cases hany : h.any (fun p => p.1 = canonicalKey k) with
  | true =>
    simp only [hany, if_true]
    rw [find?_map_replace_ne _ _ _ hne]
  | false =>
    simp only [hany, Bool.false_eq_true, if_false]
    rw [List.find?_append]
    have h1 : ([(canonicalKey k, v)].find? (fun p => p.1 = canonicalKey k2)) = none := by
      simp [hne]
    cases hf : h.find? (fun p => p.1 = canonicalKey k2) <;> simp [hf, h1]

theorem mergeHeaders_cons (h : MimeHdr) (kv : String × String) (L : List (String × String)) :
    mergeHeaders h (kv :: L) =
      mergeHeaders (if kv.2 = "" then h else hSet h kv.1 kv.2) L := rfl

theorem hGet_mergeHeaders_frame (name : String) :
    ∀ (L : List (String × String)) (h : MimeHdr),
      (∀ kv ∈ L, kv.2 = "" ∨ canonicalKey kv.1 ≠ canonicalKey name) →
      hGet (mergeHeaders h L) name = hGet h name := by
  intro L
  induction L with
  | nil => intro h _; rfl
  | cons kv L ih =>
    intro h hL
    have hkv := hL kv (by simp)
    rw [mergeHeaders_cons, ih _ (fun x hx => hL x (by simp [hx]))]
    by_cases he : kv.2 = ""
    · rw [if_pos he]
    · rw [if_neg he]
      exact hGet_hSet_ne _ _ _ _
        (by rcases hkv with h1 | h1; exact absurd h1 he; exact h1)

theorem mergeHeaders_skip_empty (h : MimeHdr) (k : String) (rest : List (String × String)) :
    mergeHeaders h ((k, "") :: rest) = mergeHeaders h rest := by
  simp [mergeHeaders]

theorem resolveOptional_hGet_ne {rend : String → Except String String}
    {name tmpl : String} {hdr hdr2 : MimeHdr} {k2 : String}
    (h : resolveOptional rend name tmpl hdr = .ok hdr2)
    (hne : canonicalKey name ≠ canonicalKey k2) :
    hGet hdr2 k2 = hGet hdr k2 := by
  unfold resolveOptional at h
  split at h
  · split at h
    · exact absurd h (by simp)
    · next v hv =>
      simp only [Except.ok.injEq] at h
      subst h
      split
      · exact hGet_hSet_ne _ _ _ _ hne
      · rfl
  · simp only [Except.ok.injEq] at h
    subst h
    rfl

theorem buildMessage_spec
    {cfg : EmailConfig} {parsed : Except String Tpl}
    {rend : String → Except String String} {subjEnc : String → String}
    {boundary bodyOut date : String} {bodyErr : Option String}
    {fs : String → Except String (List Nat)} {fv : String} {built : BuiltMsg}
    (hb : buildMessage cfg parsed rend subjEnc boundary bodyOut bodyErr date fs =
      .ok (fv, built)) :
    ∃ t toV, parsed = .ok t ∧
      chooseNonEmpty t.tFrom cfg.From ≠ "" ∧
      rend (chooseNonEmpty t.tFrom cfg.From) = .ok fv ∧
      chooseNonEmpty t.tTo cfg.To ≠ "" ∧
      rend (chooseNonEmpty t.tTo cfg.To) = .ok toV ∧
      ((∀ kv ∈ cfg.Headers, kv.2 = "" ∨ canonicalKey kv.1 ≠ "From") →
        hGet built.hdr "From" = fv) ∧
      ((∀ kv ∈ cfg.Headers, kv.2 = "" ∨ canonicalKey kv.1 ≠ "To") →
        hGet built.hdr "To" = toV) := by
  unfold buildMessage at hb
  by_cases h1 : cfg.TemplatePath = ""
  · rw [if_pos h1] at hb; exact absurd hb (by simp)
  rw [if_neg h1] at hb
  by_cases h2 : cfg.Smarthost.Host = "" ∧ cfg.Smarthost.Port = ""
  · rw [if_pos h2] at hb; exact absurd hb (by simp)
  rw [if_neg h2] at hb
  cases hparsed : parsed with
  | error e => rw [hparsed] at hb; exact absurd hb (by simp)
  | ok t =>
  rw [hparsed] at hb
  simp only [] at hb
  by_cases hfrom : chooseNonEmpty t.tFrom cfg.From = ""
  · rw [if_pos hfrom] at hb; exact absurd hb (by simp)
  rw [if_neg hfrom] at hb
  cases hrf : rend (chooseNonEmpty t.tFrom cfg.From) with
  | error e => rw [hrf] at hb; exact absurd hb (by simp)
  | ok fromV =>
  rw [hrf] at hb
  simp only [] at hb
  by_cases hto : chooseNonEmpty t.tTo cfg.To = ""
  · rw [if_pos hto] at hb; exact absurd hb (by simp)
  rw [if_neg hto] at hb
  cases hrt : rend (chooseNonEmpty t.tTo cfg.To) with
  | error e => rw [hrt] at hb; exact absurd hb (by simp)
  | ok toV =>
  rw [hrt] at hb
  simp only [] at hb
  cases hcc : resolveOptional rend "Cc" (chooseNonEmpty t.tCc cfg.Cc)
      (hSet (hSet [] "From" fromV) "To" toV) with
  | error e => rw [hcc] at hb; exact absurd hb (by simp)
  | ok hdr3 =>
  rw [hcc] at hb
  simp only [] at hb
  cases hbcc : resolveOptional rend "Bcc" (chooseNonEmpty t.tBcc cfg.Bcc) hdr3 with
  | error e => rw [hbcc] at hb; exact absurd hb (by simp)
  | ok hdr4 =>
  rw [hbcc] at hb
  simp only [] at hb
  cases hrs : rend (if t.tSubject = "" then "(no subject)" else t.tSubject) with
  | error e => rw [hrs] at hb; exact absurd hb (by simp)
  | ok subjV =>
  rw [hrs] at hb
  simp only [] at hb
  have kCTE : canonicalKey "Content-Transfer-Encoding" ≠ canonicalKey "From" := by decide
  have kCT : canonicalKey "Content-Type" ≠ canonicalKey "From" := by decide
  have kDate : canonicalKey "Date" ≠ canonicalKey "From" := by decide
  have kMime : canonicalKey "MIME-Version" ≠ canonicalKey "From" := by decide
  have kSubj : canonicalKey "Subject" ≠ canonicalKey "From" := by decide
  have kBcc : canonicalKey "Bcc" ≠ canonicalKey "From" := by decide
  have kCc : canonicalKey "Cc" ≠ canonicalKey "From" := by decide
  have kTo : canonicalKey "To" ≠ canonicalKey "From" := by decide
  have kCTE2 : canonicalKey "Content-Transfer-Encoding" ≠ canonicalKey "To" := by decide
  have kCT2 : canonicalKey "Content-Type" ≠ canonicalKey "To" := by decide
  have kDate2 : canonicalKey "Date" ≠ canonicalKey "To" := by decide
  have kMime2 : canonicalKey "MIME-Version" ≠ canonicalKey "To" := by decide
  have kSubj2 : canonicalKey "Subject" ≠ canonicalKey "To" := by decide
  have kBcc2 : canonicalKey "Bcc" ≠ canonicalKey "To" := by decide
  have kCc2 : canonicalKey "Cc" ≠ canonicalKey "To" := by decide
  have kFromLit : canonicalKey "From" = "From" := by decide
  have kToLit : canonicalKey "To" = "To" := by decide
  have hpre4From : hGet hdr4 "From" = fromV := by
    rw [resolveOptional_hGet_ne hbcc kBcc, resolveOptional_hGet_ne hcc kCc,
      hGet_hSet_ne _ _ _ _ kTo]
    exact hGet_hSet_same _ _ _
  have hpre4To : hGet hdr4 "To" = toV := by
    rw [resolveOptional_hGet_ne hbcc kBcc2, resolveOptional_hGet_ne hcc kCc2]
    exact hGet_hSet_same _ _ _
  by_cases hatt : cfg.Attachments = []
  · rw [if_pos hatt] at hb
    simp only [Except.ok.injEq, Prod.mk.injEq] at hb
    obtain ⟨hfv, hbuilt⟩ := hb
    subst hfv
    subst hbuilt
    refine ⟨t, toV, rfl, hfrom, hrf, hto, hrt, ?_, ?_⟩
    · intro hm
      show hGet (hSet (hSet _ "Content-Type" _) "Content-Transfer-Encoding" _) "From" = _
      rw [hGet_hSet_ne _ _ _ _ kCTE, hGet_hSet_ne _ _ _ _ kCT,
        hGet_mergeHeaders_frame _ _ _
          (by intro kv hkv; rcases hm kv hkv with h | h; exact Or.inl h
              exact Or.inr (by rw [kFromLit]; exact h)),
        hGet_hSet_ne _ _ _ _ kDate, hGet_hSet_ne _ _ _ _ kMime,
        hGet_hSet_ne _ _ _ _ kSubj]
      exact hpre4From
    · intro hm
      show hGet (hSet (hSet _ "Content-Type" _) "Content-Transfer-Encoding" _) "To" = _
      rw [hGet_hSet_ne _ _ _ _ kCTE2, hGet_hSet_ne _ _ _ _ kCT2,
        hGet_mergeHeaders_frame _ _ _
          (by intro kv hkv; rcases hm kv hkv with h | h; exact Or.inl h
              exact Or.inr (by rw [kToLit]; exact h)),
        hGet_hSet_ne _ _ _ _ kDate2, hGet_hSet_ne _ _ _ _ kMime2,
        hGet_hSet_ne _ _ _ _ kSubj2]
      exact hpre4To
  · rw [if_neg hatt] at hb
    cases hra : readAttachments fs cfg.Attachments with
    | error e => rw [hra] at hb; exact absurd hb (by simp)
    | ok parts =>
    rw [hra] at hb
    simp only [Except.ok.injEq, Prod.mk.injEq] at hb
    obtain ⟨hfv, hbuilt⟩ := hb
    subst hfv
    subst hbuilt
    refine ⟨t, toV, rfl, hfrom, hrf, hto, hrt, ?_, ?_⟩
    · intro hm
      show hGet (hSet _ "Content-Type" _) "From" = _
      rw [hGet_hSet_ne _ _ _ _ kCT,
        hGet_mergeHeaders_frame _ _ _
          (by intro kv hkv; rcases hm kv hkv with h | h; exact Or.inl h
              exact Or.inr (by rw [kFromLit]; exact h)),
        hGet_hSet_ne _ _ _ _ kDate, hGet_hSet_ne _ _ _ _ kMime,
        hGet_hSet_ne _ _ _ _ kSubj]
      exact hpre4From
    · intro hm
      show hGet (hSet _ "Content-Type" _) "To" = _
      rw [hGet_hSet_ne _ _ _ _ kCT2,
        hGet_mergeHeaders_frame _ _ _
          (by intro kv hkv; rcases hm kv hkv with h | h; exact Or.inl h
              exact Or.inr (by rw [kToLit]; exact h)),
        hGet_hSet_ne _ _ _ _ kDate2, hGet_hSet_ne _ _ _ _ kMime2,
        hGet_hSet_ne _ _ _ _ kSubj2]
      exact hpre4To
/-- C1 (amended): with the template's From value non-empty and rendered to
itself, and no non-empty custom header canonically named From, the
assembled message's From is the template's value even when the
configuration From is set; when the template omits From the configuration
value is used; when both are empty `Send` returns a permanent error
(`retry = false`) before any SMTP command.  The same holds for To. -/
theorem c1_header_priority
    (cfg : EmailConfig) (parsed : Except String Tpl)
    (rend : String → Except String String) (subjEnc : String → String)
    (boundary bodyOut : String) (bodyErr : Option String) (date : String)
    (fs : String → Except String (List Nat)) (server : SmtpServer) (t : Tpl)
    (hparsed : parsed = .ok t) :
    (t.tFrom ≠ "" → rend t.tFrom = .ok t.tFrom →
      (∀ kv ∈ cfg.Headers, kv.2 = "" ∨ canonicalKey kv.1 ≠ "From") →
      ∀ fv built,
        buildMessage cfg parsed rend subjEnc boundary bodyOut bodyErr date fs =
          .ok (fv, built) →
        hGet built.hdr "From" = t.tFrom) ∧
    (t.tFrom = "" → cfg.From ≠ "" → rend cfg.From = .ok cfg.From →
      (∀ kv ∈ cfg.Headers, kv.2 = "" ∨ canonicalKey kv.1 ≠ "From") →
      ∀ fv built,
        buildMessage cfg parsed rend subjEnc boundary bodyOut bodyErr date fs =
          .ok (fv, built) →
        hGet built.hdr "From" = cfg.From) ∧
    (t.tFrom = "" → cfg.From = "" → cfg.TemplatePath ≠ "" →
      ¬(cfg.Smarthost.Host = "" ∧ cfg.Smarthost.Port = "") →
      Send cfg parsed rend subjEnc boundary bodyOut bodyErr date fs server =
        ⟨false, some "missing From address", []⟩) ∧
    (t.tTo ≠ "" → rend t.tTo = .ok t.tTo →
      (∀ kv ∈ cfg.Headers, kv.2 = "" ∨ canonicalKey kv.1 ≠ "To") →
      ∀ fv built,
        buildMessage cfg parsed rend subjEnc boundary bodyOut bodyErr date fs =
          .ok (fv, built) →
        hGet built.hdr "To" = t.tTo) ∧
    (t.tTo = "" → cfg.To ≠ "" → rend cfg.To = .ok cfg.To →
      (∀ kv ∈ cfg.Headers, kv.2 = "" ∨ canonicalKey kv.1 ≠ "To") →
      ∀ fv built,
        buildMessage cfg parsed rend subjEnc boundary bodyOut bodyErr date fs =
          .ok (fv, built) →
        hGet built.hdr "To" = cfg.To) ∧
    (t.tTo = "" → cfg.To = "" → cfg.TemplatePath ≠ "" →
      ¬(cfg.Smarthost.Host = "" ∧ cfg.Smarthost.Port = "") →
      chooseNonEmpty t.tFrom cfg.From ≠ "" →
      ∀ fv2, rend (chooseNonEmpty t.tFrom cfg.From) = .ok fv2 →
      Send cfg parsed rend subjEnc boundary bodyOut bodyErr date fs server =
        ⟨false, some "missing To address", []⟩) := by
  subst hparsed
  refine ⟨?_, ?_, ?_, ?_, ?_, ?_⟩
  · intro hft hrend hm fv built hb
    obtain ⟨t2, toV, ht2, hfne, hrf, htne, hrt, hF, _⟩ := buildMessage_spec hb
    injection ht2 with h1; subst h1
    have hch : chooseNonEmpty t.tFrom cfg.From = t.tFrom := by
      simp [chooseNonEmpty, hft]
    rw [hch] at hrf
    rw [hrend] at hrf
    injection hrf with hfv
    rw [hF hm, ← hfv]
  · intro hft hcf hrend hm fv built hb
    obtain ⟨t2, toV, ht2, hfne, hrf, htne, hrt, hF, _⟩ := buildMessage_spec hb
    injection ht2 with h1; subst h1
    have hch : chooseNonEmpty t.tFrom cfg.From = cfg.From := by
      simp [chooseNonEmpty, hft]
    rw [hch] at hrf
    rw [hrend] at hrf
    injection hrf with hfv
    rw [hF hm, ← hfv]
  · intro hft hcf htp hsh
    have hbuild : buildMessage cfg (.ok t) rend subjEnc boundary bodyOut bodyErr date fs =
        .error "missing From address" := by
      unfold buildMessage
      rw [if_neg htp, if_neg hsh]
      simp only []
      rw [if_pos (by simp [chooseNonEmpty, hft, hcf])]
    unfold Send
    rw [hbuild]
  · intro htt hrend hm fv built hb
    obtain ⟨t2, toV, ht2, hfne, hrf, htne, hrt, _, hT⟩ := buildMessage_spec hb
    injection ht2 with h1; subst h1
    have hch : chooseNonEmpty t.tTo cfg.To = t.tTo := by
      simp [chooseNonEmpty, htt]
    rw [hch] at hrt
    rw [hrend] at hrt
    injection hrt with htv
    rw [hT hm, ← htv]
  · intro htt hct hrend hm fv built hb
    obtain ⟨t2, toV, ht2, hfne, hrf, htne, hrt, _, hT⟩ := buildMessage_spec hb
    injection ht2 with h1; subst h1
    have hch : chooseNonEmpty t.tTo cfg.To = cfg.To := by
      simp [chooseNonEmpty, htt]
    rw [hch] at hrt
    rw [hrend] at hrt
    injection hrt with htv
    rw [hT hm, ← htv]
  · intro htt hct htp hsh hfne fv2 hrf2
    have hbuild : buildMessage cfg (.ok t) rend subjEnc boundary bodyOut bodyErr date fs =
        .error "missing To address" := by
      unfold buildMessage
      rw [if_neg htp, if_neg hsh]
      simp only []
      rw [if_neg hfne, hrf2]
      simp only []
      rw [if_pos (by simp [chooseNonEmpty, htt, hct])]
    unfold Send
    rw [hbuild]

/-- C1 counterexample: the claim as stated fails — with the template From
set to `a@x.com` and a custom configuration header named From, the
assembled message's From is the custom value, not the template's. -/
theorem c1_counterexample :
    ((buildMessage c1cfgOverride (.ok c1tpl) Except.ok id "b" "body" none "date"
      (fun _ => .error "fs")).map (fun r => hGet r.2.hdr "From")).toOption =
        some "evil@x.com"
    ∧ c1tpl.tFrom ≠ "evil@x.com" := by
  constructor
  · decide
  · decide

/-- C1 witness: the amended theorem applied at a concrete template and
configuration. -/
theorem c1_header_priority_witness :
    ((buildMessage c1cfg (.ok c1tpl) Except.ok id "b" "body" none "date"
      (fun _ => .error "fs")).map (fun r => hGet r.2.hdr "From")).toOption =
        some "a@x.com" := by
  cases hb : buildMessage c1cfg (.ok c1tpl) Except.ok id "b" "body" none "date"
      (fun _ => .error "fs") with
  | error e =>
    have hok : ((buildMessage c1cfg (.ok c1tpl) Except.ok id "b" "body" none "date"
        (fun _ => .error "fs")).toOption).isSome = true := by decide
    rw [hb] at hok
    simp [Except.toOption] at hok
  | ok p =>
    have h := (c1_header_priority c1cfg (.ok c1tpl) Except.ok id "b" "body" none "date"
      (fun _ => .error "fs") allOkServer c1tpl rfl).1
    have h2 := h (by decide) rfl (by intro kv hkv; simp [c1cfg] at hkv) p.1 p.2 (by rw [hb])
    show some (hGet p.2.hdr "From") = some "a@x.com"
    rw [h2]
    rfl

/-- C5 (amended): the custom-header merge skips entries with empty values,
and a header whose canonical name is named by no non-empty custom entry
keeps its value; but a non-empty custom entry does replace the existing
value of the header with the same canonical name — From, To, Cc, Bcc,
Subject, Date and MIME-Version included. -/
theorem c5_merge_frame (h : MimeHdr) (L : List (String × String))
    (name k k2 : String) (rest : List (String × String)) (v : String) :
    (mergeHeaders h ((k, "") :: rest) = mergeHeaders h rest) ∧
    ((∀ kv ∈ L, kv.2 = "" ∨ canonicalKey kv.1 ≠ canonicalKey name) →
      hGet (mergeHeaders h L) name = hGet h name) ∧
    (v ≠ "" → hGet (mergeHeaders h [(k2, v)]) k2 = v) := by
  refine ⟨mergeHeaders_skip_empty h k rest, hGet_mergeHeaders_frame name L h, ?_⟩
  intro hv
  show hGet (mergeHeaders h [(k2, v)]) k2 = v
  rw [mergeHeaders_cons, if_neg hv]
  exact hGet_hSet_same _ _ _

/-- C5 counterexample: a custom header named Subject replaces the resolved
Subject value of the assembled message, contradicting the claim that the
merge never overrides it. -/
theorem c5_counterexample :
    ((buildMessage c5cfg (.ok c5tpl) Except.ok id "b" "body" none "date"
      (fun _ => .error "fs")).map (fun r => hGet r.2.hdr "Subject")).toOption =
        some "HIJACK"
    ∧ id c5tpl.tSubject ≠ "HIJACK" := by
  constructor
  · decide
  · decide

/-- C5 witness: the amended merge properties at concrete inputs. -/
theorem c5_merge_frame_witness :
    (mergeHeaders [("From", "a@x.com")] [("X", "")] = mergeHeaders [("From", "a@x.com")] []) ∧
    hGet (mergeHeaders [("From", "a@x.com")] [("X-Env", "prod")]) "From" =
      hGet [("From", "a@x.com")] "From" ∧
    hGet (mergeHeaders [("From", "a@x.com")] [("From", "evil@x.com")]) "From" =
      "evil@x.com" := by
  obtain ⟨h1, h2, h3⟩ := c5_merge_frame [("From", "a@x.com")] [("X-Env", "prod")]
    "From" "X" "From" [] "evil@x.com"
  exact ⟨h1, h2 (by decide), h3 (by decide)⟩

/-- The RCPT loop stops at the first rejected recipient: the accepted
prefix and the rejected one are the only commands issued. -/
theorem rcptLoop_reject (server : SmtpServer) (r : String) (post : List String)
    (hr : server.rcptOk r = false) :
    ∀ pre : List String, (∀ x ∈ pre, server.rcptOk x = true) →
      rcptLoop server (pre ++ r :: post) = .inl (pre.map SmtpCmd.rcptTo ++ [.rcptTo r]) := by
  intro pre
  induction pre with
  | nil =>
    intro _
    simp only [List.nil_append, rcptLoop, hr, Bool.false_eq_true, if_false, List.map_nil]
  | cons a pre ih =>
    intro hpre
    have ha : server.rcptOk a = true := hpre a (by simp)
    simp only [List.cons_append, rcptLoop, ha, if_true, List.append_eq]
    rw [ih (fun x hx => hpre x (by simp [hx]))]
    simp

/-- C8: if the relay rejects a recipient, `Send` returns that error with
`retry = false` immediately: the command trace ends at the rejected RCPT
TO and no later recipient and no DATA command is issued. -/
theorem c8_rcpt_abort
    (cfg : EmailConfig) (parsed : Except String Tpl)
    (rend : String → Except String String) (subjEnc : String → String)
    (boundary bodyOut : String) (bodyErr : Option String) (date : String)
    (fs : String → Except String (List Nat)) (server : SmtpServer)
    (fv : String) (built : BuiltMsg) (pre : List String) (r : String) (post : List String)
    (hb : buildMessage cfg parsed rend subjEnc boundary bodyOut bodyErr date fs =
      .ok (fv, built))
    (hrs : recipients built.hdr = pre ++ r :: post)
    (hdial : server.dialOk = true) (hclient : server.clientOk = true)
    (hmail : server.mailOk fv = true)
    (hpre : ∀ x ∈ pre, server.rcptOk x = true) (hr : server.rcptOk r = false) :
    Send cfg parsed rend subjEnc boundary bodyOut bodyErr date fs server =
      ⟨false, some "RCPT rejected",
        (if cfg.Hello ≠ "" then [.helo cfg.Hello] else []) ++ [.mailFrom fv] ++
          (pre.map SmtpCmd.rcptTo ++ [.rcptTo r])⟩ := by
  unfold Send
  rw [hb]
  show smtpPhase server cfg fv (recipients built.hdr) built = _
  unfold smtpPhase
  rw [hrs, hdial, hclient, hmail]
  simp only [Bool.not_true, Bool.false_eq_true, if_false]
  rw [rcptLoop_reject server r post hr pre hpre]

/-- C8 witness: rejecting the second of three recipients stops the trace
after the second RCPT TO; the third is never attempted and no DATA is
issued. -/
theorem c8_rcpt_abort_witness :
    Send c8cfg (.ok c8tpl) Except.ok id "b" "body" none "date"
      (fun _ => .error "fs") c8server =
      ⟨false, some "RCPT rejected",
        [.mailFrom "a@x.com", .rcptTo "r1@x", .rcptTo "r2@x"]⟩ := by
  cases hb : buildMessage c8cfg (.ok c8tpl) Except.ok id "b" "body" none "date"
      (fun _ => .error "fs") with
  | error e =>
    have hok : ((buildMessage c8cfg (.ok c8tpl) Except.ok id "b" "body" none "date"
        (fun _ => .error "fs")).toOption).isSome = true := by decide
    rw [hb] at hok
    simp [Except.toOption] at hok
  | ok p =>
    have hfv : p.1 = "a@x.com" := by
      have h1 : ((buildMessage c8cfg (.ok c8tpl) Except.ok id "b" "body" none "date"
          (fun _ => .error "fs")).map Prod.fst).toOption = some "a@x.com" := by decide
      rw [hb] at h1
      simpa [Except.map, Except.toOption] using h1
    have hrs : recipients p.2.hdr = ["r1@x"] ++ "r2@x" :: ["r3@x"] := by
      have h1 : ((buildMessage c8cfg (.ok c8tpl) Except.ok id "b" "body" none "date"
          (fun _ => .error "fs")).map (fun r => recipients r.2.hdr)).toOption =
            some ["r1@x", "r2@x", "r3@x"] := by decide
      rw [hb] at h1
      simpa [Except.map, Except.toOption] using h1
    have hsend := c8_rcpt_abort c8cfg (.ok c8tpl) Except.ok id "b" "body" none "date"
      (fun _ => .error "fs") c8server p.1 p.2 ["r1@x"] "r2@x" ["r3@x"]
      (by rw [hb]) hrs rfl rfl rfl (by decide) (by decide)
    rw [hsend, hfv]
    decide

/-- C4 (code bug): when the body template execution fails, `Send` ignores
the error from `writeTextPart`, still delivers a message whose text part
is empty, and returns `(false, nil)` — instead of the permanent failure
without delivery that the spec requires. -/
theorem c4_body_error_delivered :
    (Send c4cfg (.ok c4tpl) Except.ok id "b" "partial output"
      (some "body template execution failed") "date" (fun _ => .error "fs")
      allOkServer).retry = false ∧
    (Send c4cfg (.ok c4tpl) Except.ok id "b" "partial output"
      (some "body template execution failed") "date" (fun _ => .error "fs")
      allOkServer).err = none ∧
    (sentMessages (Send c4cfg (.ok c4tpl) Except.ok id "b" "partial output"
      (some "body template execution failed") "date" (fun _ => .error "fs")
      allOkServer).cmds).map BuiltMsg.textWritten = [""] := by
  refine ⟨by decide, by decide, by decide⟩

/-- Recipient entries whose address cannot be extracted produce no RCPT
command and no error. -/
theorem rawRcptLoop_all_skip (pa : String → Option String) (server : SmtpServer) :
    ∀ (l : List String) (uniq : List String),
      (∀ r ∈ l, extractAddr pa r = none) →
      rawRcptLoop pa server uniq l = .ok [] := by
  intro l
  induction l with
  | nil => intro _ _; rfl
  | cons a l ih =>
    intro uniq hall
    have ha : extractAddr pa a = none := hall a (by simp)
    simp only [rawRcptLoop, ha]
    exact ih uniq (fun r hr => hall r (by simp [hr]))

/-- C10: in `SendRaw`, recipients whose address cannot be extracted are
skipped silently; the empty-recipient check runs on the entries before
extraction, so when every entry is unextractable the session still reaches
the DATA phase having issued zero RCPT TO commands. -/
theorem c10_unextractable_skipped
    (pal : String → Option (List String)) (pa : String → Option String)
    (server : SmtpServer) (headers : MimeHdr) (fa : String)
    (hfrom : ¬ hGet headers "From" = "")
    (htoAll : ¬ (parseAddressList pal (hGet headers "To") ++
      parseAddressList pal (hGet headers "Cc") ++
      parseAddressList pal (hGet headers "Bcc")) = [])
    (hall : ∀ r ∈ parseAddressList pal (hGet headers "To") ++
      parseAddressList pal (hGet headers "Cc") ++
      parseAddressList pal (hGet headers "Bcc"), extractAddr pa r = none)
    (hfa : extractAddr pa (hGet headers "From") = some fa)
    (hdial : server.dialOk = true) (hclient : server.clientOk = true)
    (hmail : server.mailOk fa = true) (hdata : server.dataOk = true) :
    SendRawModel pal pa server headers = .ok [SmtpCmd.mailFrom fa, SmtpCmd.dataRaw] := by
  unfold SendRawModel
  rw [if_neg hfrom]
  simp only [if_neg htoAll, hdial, hclient, hfa, hmail, hdata, Bool.not_true,
    Bool.false_eq_true, if_false]
  rw [rawRcptLoop_all_skip pa server _ [] hall]
  rfl

/-- C10 witness: with both `mail.ParseAddress` oracles failing, `alice` and
`bob` have no `<...>` part and no `@`, so the session reaches DATA with no
RCPT TO at all. -/
theorem c10_unextractable_skipped_witness :
    SendRawModel (fun _ => none) (fun _ => none) allOkServer c10hdrs =
      .ok [SmtpCmd.mailFrom "a@x.com", SmtpCmd.dataRaw] :=
  c10_unextractable_skipped (fun _ => none) (fun _ => none) allOkServer c10hdrs
    "a@x.com" (by decide) (by decide) (by decide) (by decide) rfl rfl rfl rfl

/-- C9 (code bug): the DATA stream of `SendRaw` is not the original
message: for a seekable input it is the post-header remainder followed by
the whole message again, and for a non-seekable input it is the body
alone — never the message itself. -/
theorem c9_raw_stream_not_verbatim :
    sendRawDataStream true (strBytes "From: a@x.com\r\nTo: b@x.com\r\n\r\nBody") =
      some (strBytes "Body" ++ strBytes "From: a@x.com\r\nTo: b@x.com\r\n\r\nBody") ∧
    sendRawDataStream false (strBytes "From: a@x.com\r\nTo: b@x.com\r\n\r\nBody") =
      some (strBytes "Body") ∧
    sendRawDataStream true (strBytes "From: a@x.com\r\nTo: b@x.com\r\n\r\nBody") ≠
      some (strBytes "From: a@x.com\r\nTo: b@x.com\r\n\r\nBody") ∧
    sendRawDataStream false (strBytes "From: a@x.com\r\nTo: b@x.com\r\n\r\nBody") ≠
      some (strBytes "From: a@x.com\r\nTo: b@x.com\r\n\r\nBody") := by
  exact ⟨by decide, by decide, by decide, by decide⟩


theorem findBreakAux_cases (rem : List Nat) (half avail : Nat) :
    ∀ j, findBreakAux rem half avail j = avail ∨
      (1 ≤ findBreakAux rem half avail j ∧ findBreakAux rem half avail j ≤ j + 1 ∧
        findBreakAux rem half avail j - 1 < rem.length ∧
        (rem.getD (findBreakAux rem half avail j - 1) 0 = 32 ∨
          rem.getD (findBreakAux rem half avail j - 1) 0 = 59)) := by
  intro j
  induction j with
  | zero => left; rfl
  | succ n ih =>
    rw [findBreakAux]
    split
    · next hcond =>
      split
      · next hbc =>
        right
        exact ⟨by omega, by omega, by simpa using hcond.2, by simpa using hbc⟩
      · rcases ih with h | h
        · left; exact h
        · right; exact ⟨h.1, by omega, h.2.2⟩
    · left; rfl

theorem findBreak_cases (avail : Nat) (rem : List Nat) (ha : 1 ≤ avail) :
    findBreak avail rem = avail ∨
      (1 ≤ findBreak avail rem ∧ findBreak avail rem ≤ avail ∧
        findBreak avail rem - 1 < rem.length ∧
        (rem.getD (findBreak avail rem - 1) 0 = 32 ∨
          rem.getD (findBreak avail rem - 1) 0 = 59)) := by
  unfold findBreak
  rcases findBreakAux_cases rem (avail / 2) avail (avail - 1) with h | h
  · left; exact h
  · right; exact ⟨h.1, by omega, h.2.2⟩

theorem findBreak_pos77 (rem : List Nat) : 1 ≤ findBreak 77 rem := by
  rcases findBreak_cases 77 rem (by omega) with h | h
  · omega
  · exact h.1

theorem foldLoop77Go_ne_nil (fuel : Nat) (rem : List Nat) :
    foldLoop77Go fuel rem ≠ [] := by
  cases fuel with
  | zero => simp [foldLoop77Go]
  | succ n =>
    rw [foldLoop77Go]
    split <;> simp

theorem foldLoop77Go_length :
    ∀ (fuel : Nat) (rem : List Nat), rem.length ≤ fuel →
      ∀ l ∈ foldLoop77Go fuel rem, l.length ≤ 77 := by
  intro fuel
  induction fuel with
  | zero =>
    intro rem hf l hl
    rw [foldLoop77Go] at hl
    simp at hl
    subst hl
    omega
  | succ n ih =>
    intro rem hf l hl
    rw [foldLoop77Go] at hl
    split at hl
    · next hle =>
      simp at hl
      subst hl
      exact hle
    · next hgt =>
      simp only [List.mem_cons] at hl
      rcases hl with rfl | hl
      · rcases findBreak_cases 77 rem (by omega) with hbp | hbp
        · simp [List.length_take]; omega
        · simp [List.length_take]; omega
      · have hbp1 : 1 ≤ findBreak 77 rem := findBreak_pos77 rem
        exact ih _ (by simp only [List.length_drop]; omega) l hl

theorem take_getLast {rem : List Nat} {bp : Nat} (h1 : 1 ≤ bp) (h2 : bp ≤ rem.length) :
    (rem.take bp).getLast? = some (rem.getD (bp - 1) 0) := by
  have hlen : (rem.take bp).length = bp := by
    simp [List.length_take]; omega
  rw [List.getLast?_eq_getElem?, hlen]
  rw [List.getElem?_take, if_pos (by omega)]
  rw [List.getD_eq_getElem?_getD]
  cases hx : rem[bp - 1]? with
  | none =>
    rw [List.getElem?_eq_none_iff] at hx
    omega
  | some x => rfl

theorem foldLoop77Go_breaks :
    ∀ (fuel : Nat) (rem : List Nat), rem.length ≤ fuel →
      ∀ l ∈ (foldLoop77Go fuel rem).dropLast,
        l.length = 77 ∨ (∃ c, l.getLast? = some c ∧ (c = 32 ∨ c = 59)) := by
  intro fuel
  induction fuel with
  | zero =>
    intro rem hf l hl
    rw [foldLoop77Go] at hl
    simp at hl
  | succ n ih =>
    intro rem hf l hl
    rw [foldLoop77Go] at hl
    split at hl
    · simp at hl
    · next hgt =>
      rw [List.dropLast_cons_of_ne_nil (foldLoop77Go_ne_nil _ _)] at hl
      simp only [List.mem_cons] at hl
      rcases hl with rfl | hl
      · rcases findBreak_cases 77 rem (by omega) with hbp | hbp
        · left
          simp [List.length_take]
          omega
        · right
          refine ⟨rem.getD (findBreak 77 rem - 1) 0, ?_, hbp.2.2.2⟩
          exact take_getLast hbp.1 (by omega)
      · exact ih _ (by simp only [List.length_drop]
                       have := findBreak_pos77 rem; omega) l hl

/-- C6 (amended): for a header name short enough that `k: ` fits the
78-octet limit, every line `writeHeaders` emits is at most 78 octets and
every continuation line begins with a space; every non-final line either
ends at a space or semicolon found by the code's upper-half scan, or is a
hard break filling the full 78 octets. -/
theorem c6_header_folding (k v : List Nat) (hk : k.length + 2 ≤ 78) :
    (∀ l ∈ foldHeaderValue k v, l.length ≤ 78) ∧
    (∀ l ∈ (foldHeaderValue k v).tail, l.head? = some 32) ∧
    (∀ l ∈ (foldHeaderValue k v).dropLast,
      l.length = 78 ∨ (∃ c, l.getLast? = some c ∧ (c = 32 ∨ c = 59))) := by
  have hlen0 : (k ++ [58, 32] ++ v).length = k.length + 2 + v.length := by
    simp only [List.length_append, List.length_cons, List.length_nil]
  by_cases hshort : (k ++ [58, 32] ++ v).length ≤ 78
  · have heq : foldHeaderValue k v = [k ++ [58, 32] ++ v] := by
      simp only [foldHeaderValue]
      rw [if_pos hshort]
    rw [heq]
    refine ⟨?_, ?_, ?_⟩
    · intro l hl
      simp at hl
      subst hl
      simpa using hshort
    · intro l hl
      simp at hl
    · intro l hl
      simp at hl
  · by_cases hbig : 78 ≤ k.length + 2
    · have hkeq : k.length + 2 = 78 := by omega
      have heq : foldHeaderValue k v =
          (k ++ [58, 32]) :: (foldLoop77 v).map (fun l => 32 :: l) := by
        simp only [foldHeaderValue]
        rw [if_neg hshort, if_pos hbig]
      rw [heq]
      refine ⟨?_, ?_, ?_⟩
      · intro l hl
        simp only [List.mem_cons] at hl
        rcases hl with rfl | hl
        · simp
          omega
        · simp only [List.mem_map] at hl
          obtain ⟨seg, hseg, rfl⟩ := hl
          have := foldLoop77Go_length v.length v (Nat.le_refl _) seg hseg
          simp
          omega
      · intro l hl
        simp only [List.tail_cons, List.mem_map] at hl
        obtain ⟨seg, hseg, rfl⟩ := hl
        rfl
      · intro l hl
        rw [List.dropLast_cons_of_ne_nil (by
          simp only [ne_eq, List.map_eq_nil_iff]
          exact foldLoop77Go_ne_nil _ _)] at hl
        simp only [List.mem_cons] at hl
        rcases hl with rfl | hl
        · left
          simp
          omega
        · rw [← List.map_dropLast] at hl
          simp only [List.mem_map] at hl
          obtain ⟨seg, hseg, rfl⟩ := hl
          rcases foldLoop77Go_breaks v.length v (Nat.le_refl _) seg hseg with h | h
          · left; simp [h]
          · right
            obtain ⟨c, hc, hcv⟩ := h
            refine ⟨c, ?_, hcv⟩
            cases seg with
            | nil => simp at hc
            | cons a s => simp [List.getLast?_cons] at hc ⊢; exact hc
    · by_cases hfit : v.length ≤ 76 - k.length
      · exfalso
        simp only [List.length_append] at hshort
        simp at hshort
        omega
      · have havail : 1 ≤ 76 - k.length := by omega
        have heq : foldHeaderValue k v =
            (k ++ [58, 32] ++ v.take (findBreak (76 - k.length) v)) ::
              (foldLoop77 (v.drop (findBreak (76 - k.length) v))).map
                (fun l => 32 :: l) := by
          simp only [foldHeaderValue]
          rw [if_neg hshort, if_neg hbig,
            show (78 : Nat) - (k.length + 2) = 76 - k.length from by omega,
            if_neg hfit]
        rw [heq]
        refine ⟨?_, ?_, ?_⟩
        · intro l hl
          simp only [List.mem_cons] at hl
          rcases hl with rfl | hl
          · have hbple : findBreak (76 - k.length) v ≤ 76 - k.length := by
              rcases findBreak_cases (76 - k.length) v havail with hbp | hbp <;> omega
            simp only [List.length_append, List.length_cons, List.length_nil,
              List.length_take]
            omega
          · simp only [List.mem_map] at hl
            obtain ⟨seg, hseg, rfl⟩ := hl
            have := foldLoop77Go_length _ _ (Nat.le_refl _) seg hseg
            simp
            omega
        · intro l hl
          simp only [List.tail_cons, List.mem_map] at hl
          obtain ⟨seg, hseg, rfl⟩ := hl
          rfl
        · intro l hl
          rw [List.dropLast_cons_of_ne_nil (by
            simp only [ne_eq, List.map_eq_nil_iff]
            exact foldLoop77Go_ne_nil _ _)] at hl
          simp only [List.mem_cons] at hl
          rcases hl with rfl | hl
          · rcases findBreak_cases (76 - k.length) v havail with hbp | hbp
            · left
              simp only [List.length_append, List.length_cons, List.length_nil,
                List.length_take, hbp]
              omega
            · right
              refine ⟨v.getD (findBreak (76 - k.length) v - 1) 0, ?_, hbp.2.2.2⟩
              rw [List.getLast?_append, List.getLast?_append]
              rw [take_getLast hbp.1 (by omega)]
              simp
          · rw [← List.map_dropLast] at hl
            simp only [List.mem_map] at hl
            obtain ⟨seg, hseg, rfl⟩ := hl
            rcases foldLoop77Go_breaks _ _ (Nat.le_refl _) seg hseg with h | h
            · left; simp [h]
            · right
              obtain ⟨c, hc, hcv⟩ := h
              refine ⟨c, ?_, hcv⟩
              cases seg with
              | nil => simp at hc
              | cons a s => simp [List.getLast?_cons] at hc ⊢; exact hc


set_option maxRecDepth 10000 in
/-- C6 counterexample: (1) the code does not break at the nearest preceding
space within the allowed width — with the only space at offset 2 it
hard-breaks at the boundary, diverging from the spec's folding rule; and
(2) for a header name longer than 76 octets the emitted `k: ` line itself
exceeds 78 octets. -/
theorem c6_counterexample :
    foldHeaderValue (strBytes "K") c6v ≠ specFoldHeaderValue (strBytes "K") c6v ∧
    ((foldHeaderValue (List.replicate 100 107) (List.replicate 90 118)).any
      (fun l => decide (78 < l.length))) = true := by
  exact ⟨by decide, by decide⟩

/-- C6 witness: the amended folding invariant at a concrete header. -/
theorem c6_header_folding_witness :
    ((foldHeaderValue (strBytes "X-Longheader") c6v).all
      (fun l => decide (l.length ≤ 78))) = true ∧
    (((foldHeaderValue (strBytes "X-Longheader") c6v).tail).all
      (fun l => decide (l.head? = some 32))) = true := by
  obtain ⟨h1, h2, h3⟩ := c6_header_folding (strBytes "X-Longheader") c6v (by decide)
  constructor
  · rw [List.all_eq_true]
    intro l hl
    simpa using h1 l hl
  · rw [List.all_eq_true]
    intro l hl
    simpa using h2 l hl

theorem b64_val_byte : ∀ i, i < 64 → b64Val (b64Byte i) = i := by decide

theorem b64Byte_props (i : Nat) : b64Byte i ≠ 61 ∧ b64Byte i ≠ 13 ∧ b64Byte i ≠ 10 := by
  by_cases h : i < 64
  · have hall : ∀ j, j < 64 → b64Byte j ≠ 61 ∧ b64Byte j ≠ 13 ∧ b64Byte j ≠ 10 := by decide
    exact hall i h
  · unfold b64Byte
    rw [List.getD_eq_default]
    · exact ⟨by omega, by omega, by omega⟩
    · have : (strBytes "ABCDEFGHIJKLMNOPQRSTUVWXYZabcdefghijklmnopqrstuvwxyz0123456789+/").length = 64 := by decide
      omega

theorem b64DecodeGroups_encode : ∀ (bs : List Nat), (∀ b ∈ bs, b < 256) →
    b64DecodeGroups (b64EncodeGroups bs) = bs
  | [], _ => rfl
  | [x], hb => by
    have hx : x < 256 := hb x (by simp)
    have h1 : b64Val (b64Byte (x / 4)) = x / 4 := b64_val_byte _ (by omega)
    have h2 : b64Val (b64Byte (x % 4 * 16)) = x % 4 * 16 := b64_val_byte _ (by omega)
    show b64DecodeGroups [b64Byte (x / 4), b64Byte (x % 4 * 16), 61, 61] = [x]
    rw [b64DecodeGroups]
    rw [if_pos rfl]
    rw [h1, h2]
    congr 1
    omega
  | [x, y], hb => by
    have hx : x < 256 := hb x (by simp)
    have hy : y < 256 := hb y (by simp)
    have h1 : b64Val (b64Byte (x / 4)) = x / 4 := b64_val_byte _ (by omega)
    have h2 : b64Val (b64Byte (x % 4 * 16 + y / 16)) = x % 4 * 16 + y / 16 :=
      b64_val_byte _ (by omega)
    have h3 : b64Val (b64Byte (y % 16 * 4)) = y % 16 * 4 := b64_val_byte _ (by omega)
    show b64DecodeGroups
      [b64Byte (x / 4), b64Byte (x % 4 * 16 + y / 16), b64Byte (y % 16 * 4), 61] = [x, y]
    rw [b64DecodeGroups]
    rw [if_neg (b64Byte_props _).1, if_pos rfl]
    rw [h1, h2, h3]
    congr 1
    · omega
    · congr 1
      omega
  | x :: y :: z :: rest, hb => by
    have hx : x < 256 := hb x (by simp)
    have hy : y < 256 := hb y (by simp)
    have hz : z < 256 := hb z (by simp)
    have ih := b64DecodeGroups_encode rest (fun b hm => hb b (by simp [hm]))
    have h1 : b64Val (b64Byte (x / 4)) = x / 4 := b64_val_byte _ (by omega)
    have h2 : b64Val (b64Byte (x % 4 * 16 + y / 16)) = x % 4 * 16 + y / 16 :=
      b64_val_byte _ (by omega)
    have h3 : b64Val (b64Byte (y % 16 * 4 + z / 64)) = y % 16 * 4 + z / 64 :=
      b64_val_byte _ (by omega)
    have h4 : b64Val (b64Byte (z % 64)) = z % 64 := b64_val_byte _ (by omega)
    show b64DecodeGroups (b64Byte (x / 4) :: b64Byte (x % 4 * 16 + y / 16) ::
      b64Byte (y % 16 * 4 + z / 64) :: b64Byte (z % 64) :: b64EncodeGroups rest) =
      x :: y :: z :: rest
    rw [b64DecodeGroups]
    rw [if_neg (b64Byte_props _).1, if_neg (b64Byte_props _).1]
    rw [h1, h2, h3, h4, ih]
    congr 1
    · omega
    · congr 1
      · omega
      · congr 1
        omega

theorem b64DecodeGroups_encode_append :
    ∀ (a t : List Nat), (∀ b ∈ a, b < 256) → a.length % 3 = 0 →
      b64DecodeGroups (b64EncodeGroups a ++ t) = a ++ b64DecodeGroups t
  | [], t, _, _ => rfl
  | [x], _, _, hlen => by simp at hlen
  | [x, y], _, _, hlen => by simp at hlen
  | x :: y :: z :: rest, t, hb, hlen => by
    have hx : x < 256 := hb x (by simp)
    have hy : y < 256 := hb y (by simp)
    have hz : z < 256 := hb z (by simp)
    have ih := b64DecodeGroups_encode_append rest t (fun b hm => hb b (by simp [hm]))
      (by simp at hlen; omega)
    have h1 : b64Val (b64Byte (x / 4)) = x / 4 := b64_val_byte _ (by omega)
    have h2 : b64Val (b64Byte (x % 4 * 16 + y / 16)) = x % 4 * 16 + y / 16 :=
      b64_val_byte _ (by omega)
    have h3 : b64Val (b64Byte (y % 16 * 4 + z / 64)) = y % 16 * 4 + z / 64 :=
      b64_val_byte _ (by omega)
    have h4 : b64Val (b64Byte (z % 64)) = z % 64 := b64_val_byte _ (by omega)
    show b64DecodeGroups (b64Byte (x / 4) :: b64Byte (x % 4 * 16 + y / 16) ::
      b64Byte (y % 16 * 4 + z / 64) :: b64Byte (z % 64) :: (b64EncodeGroups rest ++ t)) =
      x :: y :: z :: (rest ++ b64DecodeGroups t)
    rw [b64DecodeGroups]
    rw [if_neg (b64Byte_props _).1, if_neg (b64Byte_props _).1]
    rw [h1, h2, h3, h4, ih]
    congr 1
    · omega
    · congr 1
      · omega
      · congr 1
        omega

theorem b64EncodeGroups_length : ∀ bs : List Nat,
    (b64EncodeGroups bs).length = 4 * ((bs.length + 2) / 3)
  | [] => rfl
  | [x] => by simp [b64EncodeGroups]
  | [x, y] => by simp [b64EncodeGroups]
  | x :: y :: z :: rest => by
    show (b64Byte (x / 4) :: b64Byte (x % 4 * 16 + y / 16) ::
      b64Byte (y % 16 * 4 + z / 64) :: b64Byte (z % 64) :: b64EncodeGroups rest).length = _
    simp only [List.length_cons, b64EncodeGroups_length rest]
    omega

theorem b64EncodeGroups_no_crlf : ∀ bs : List Nat, ∀ c ∈ b64EncodeGroups bs,
    c ≠ 13 ∧ c ≠ 10
  | [] => by simp [b64EncodeGroups]
  | [x] => by
    intro c hc
    simp only [b64EncodeGroups, List.mem_cons] at hc
    rcases hc with rfl | rfl | rfl | hc
    · exact ⟨(b64Byte_props _).2.1, (b64Byte_props _).2.2⟩
    · exact ⟨(b64Byte_props _).2.1, (b64Byte_props _).2.2⟩
    · exact ⟨by omega, by omega⟩
    · simp at hc
      subst hc
      exact ⟨by omega, by omega⟩
  | [x, y] => by
    intro c hc
    simp only [b64EncodeGroups, List.mem_cons] at hc
    rcases hc with rfl | rfl | rfl | hc
    · exact ⟨(b64Byte_props _).2.1, (b64Byte_props _).2.2⟩
    · exact ⟨(b64Byte_props _).2.1, (b64Byte_props _).2.2⟩
    · exact ⟨(b64Byte_props _).2.1, (b64Byte_props _).2.2⟩
    · simp at hc
      subst hc
      exact ⟨by omega, by omega⟩
  | x :: y :: z :: rest => by
    intro c hc
    simp only [b64EncodeGroups, List.mem_cons] at hc
    rcases hc with rfl | rfl | rfl | rfl | hc
    · exact ⟨(b64Byte_props _).2.1, (b64Byte_props _).2.2⟩
    · exact ⟨(b64Byte_props _).2.1, (b64Byte_props _).2.2⟩
    · exact ⟨(b64Byte_props _).2.1, (b64Byte_props _).2.2⟩
    · exact ⟨(b64Byte_props _).2.1, (b64Byte_props _).2.2⟩
    · exact b64EncodeGroups_no_crlf rest c hc

theorem encodeAndWrapBase64Go_decode :
    ∀ (fuel : Nat) (b : List Nat), b.length ≤ fuel → (∀ x ∈ b, x < 256) →
      b64DecodeGroups ((encodeAndWrapBase64Go fuel b).flatten) = b := by
  intro fuel
  induction fuel with
  | zero =>
    intro b hf _
    have : b = [] := by
      cases b with
      | nil => rfl
      | cons x xs => simp at hf
    subst this
    rfl
  | succ n ih =>
    intro b hf hb
    cases b with
    | nil => rfl
    | cons x xs =>
      show b64DecodeGroups ((b64EncodeGroups ((x :: xs).take 57) ::
        encodeAndWrapBase64Go n ((x :: xs).drop 57)).flatten) = x :: xs
      rw [List.flatten_cons]
      by_cases hlen : (x :: xs).length ≤ 57
      · have hdrop : (x :: xs).drop 57 = [] := by
          rw [List.drop_eq_nil_iff]
          omega
        have htake : (x :: xs).take 57 = x :: xs := by
          rw [List.take_of_length_le]
          omega
        rw [hdrop, htake]
        show b64DecodeGroups (b64EncodeGroups (x :: xs) ++
          (encodeAndWrapBase64Go n []).flatten) = x :: xs
        have : encodeAndWrapBase64Go n [] = [] := by cases n <;> rfl
        rw [this]
        simp only [List.flatten_nil, List.append_nil]
        exact b64DecodeGroups_encode _ hb
      · have htakelen : ((x :: xs).take 57).length = 57 := by
          simp only [List.length_take, List.length_cons] at hlen ⊢
          omega
        rw [b64DecodeGroups_encode_append _ _
          (fun c hc => hb c (List.mem_of_mem_take hc)) (by rw [htakelen])]
        rw [ih _ (by
            simp only [List.length_drop, List.length_cons] at hf hlen ⊢
            omega)
          (fun c hc => hb c (List.mem_of_mem_drop hc))]
        exact List.take_append_drop 57 (x :: xs)

theorem encodeAndWrapBase64Go_lines :
    ∀ (fuel : Nat) (b : List Nat), ∀ l ∈ encodeAndWrapBase64Go fuel b, l.length ≤ 76 := by
  intro fuel
  induction fuel with
  | zero =>
    intro b l hl
    cases b <;> simp [encodeAndWrapBase64Go] at hl
  | succ n ih =>
    intro b l hl
    cases b with
    | nil => simp [encodeAndWrapBase64Go] at hl
    | cons x xs =>
      rw [show encodeAndWrapBase64Go (n + 1) (x :: xs) =
        b64EncodeGroups ((x :: xs).take 57) ::
          encodeAndWrapBase64Go n ((x :: xs).drop 57) from rfl] at hl
      simp only [List.mem_cons] at hl
      rcases hl with rfl | hl
      · rw [b64EncodeGroups_length]
        have : ((x :: xs).take 57).length ≤ 57 := by
          simp [List.length_take]
        omega
      · exact ih _ l hl

theorem encodeAndWrapBase64Go_no_crlf :
    ∀ (fuel : Nat) (b : List Nat), ∀ l ∈ encodeAndWrapBase64Go fuel b, ∀ c ∈ l,
      c ≠ 13 ∧ c ≠ 10 := by
  intro fuel
  induction fuel with
  | zero =>
    intro b l hl
    cases b <;> simp [encodeAndWrapBase64Go] at hl
  | succ n ih =>
    intro b l hl
    cases b with
    | nil => simp [encodeAndWrapBase64Go] at hl
    | cons x xs =>
      rw [show encodeAndWrapBase64Go (n + 1) (x :: xs) =
        b64EncodeGroups ((x :: xs).take 57) ::
          encodeAndWrapBase64Go n ((x :: xs).drop 57) from rfl] at hl
      simp only [List.mem_cons] at hl
      rcases hl with rfl | hl
      · exact b64EncodeGroups_no_crlf _
      · exact ih _ l hl

theorem filter_crlf_join :
    ∀ (chunks : List (List Nat)), (∀ l ∈ chunks, ∀ c ∈ l, c ≠ 13 ∧ c ≠ 10) →
      ((chunks.map (fun l => l ++ [13, 10])).flatten).filter
        (fun c => decide (c ≠ 13) && decide (c ≠ 10)) = chunks.flatten := by
  intro chunks
  induction chunks with
  | nil => intro _; rfl
  | cons l rest ih =>
    intro hcl
    simp only [List.map_cons, List.flatten_cons, List.filter_append]
    rw [ih (fun x hx => hcl x (by simp [hx]))]
    congr 1
    have h1 : l.filter (fun c => decide (c ≠ 13) && decide (c ≠ 10)) = l := by
      rw [List.filter_eq_self]
      intro c hc
      have := hcl l (by simp) c hc
      simp [this.1, this.2]
    have h2 : ([13, 10] : List Nat).filter
        (fun c => decide (c ≠ 13) && decide (c ≠ 10)) = [] := by decide
    rw [h1, h2, List.append_nil]

/-- C7's core per-file fact: decoding the wrapped base64 payload of an
attachment part recovers exactly the file bytes, and every payload line is
at most 76 octets. -/
theorem base64_part_roundtrip (bytes : List Nat) (hb : ∀ x ∈ bytes, x < 256) :
    b64DecodePayload (base64PartContent bytes) = bytes ∧
    ∀ l ∈ encodeAndWrapBase64 bytes, l.length ≤ 76 := by
  constructor
  · unfold b64DecodePayload base64PartContent
    rw [filter_crlf_join (encodeAndWrapBase64 bytes)
      (fun l hl => encodeAndWrapBase64Go_no_crlf bytes.length bytes l hl)]
    exact encodeAndWrapBase64Go_decode bytes.length bytes (Nat.le_refl _) hb
  · exact encodeAndWrapBase64Go_lines _ _

theorem readAttachments_ok {fs : String → Except String (List Nat)} :
    ∀ {atts : List String} {parts : List (String × List Nat)},
      readAttachments fs atts = .ok parts →
      parts.map Prod.fst = atts ∧ ∀ pb ∈ parts, fs pb.1 = .ok pb.2 := by
  intro atts
  induction atts with
  | nil =>
    intro parts h
    simp only [readAttachments, Except.ok.injEq] at h
    subst h
    exact ⟨rfl, by simp⟩
  | cons p rest ih =>
    intro parts h
    rw [readAttachments] at h
    cases hf : fs p with
    | error e => rw [hf] at h; simp at h
    | ok bytes =>
      rw [hf] at h
      cases hr : readAttachments fs rest with
      | error e => rw [hr] at h; simp at h
      | ok others =>
        rw [hr] at h
        simp only [Except.ok.injEq] at h
        subst h
        obtain ⟨h1, h2⟩ := ih hr
        refine ⟨by simp [h1], ?_⟩
        intro pb hpb
        simp only [List.mem_cons] at hpb
        rcases hpb with rfl | hpb
        · exact hf
        · exact h2 pb hpb

theorem buildMessage_parts
    {cfg : EmailConfig} {parsed : Except String Tpl}
    {rend : String → Except String String} {subjEnc : String → String}
    {boundary bodyOut date : String} {bodyErr : Option String}
    {fs : String → Except String (List Nat)} {fv : String} {built : BuiltMsg}
    (hb : buildMessage cfg parsed rend subjEnc boundary bodyOut bodyErr date fs =
      .ok (fv, built)) :
    (cfg.Attachments = [] ∧ built.parts = []) ∨
      readAttachments fs cfg.Attachments = .ok built.parts := by
  unfold buildMessage at hb
  by_cases h1 : cfg.TemplatePath = ""
  · rw [if_pos h1] at hb; exact absurd hb (by simp)
  rw [if_neg h1] at hb
  by_cases h2 : cfg.Smarthost.Host = "" ∧ cfg.Smarthost.Port = ""
  · rw [if_pos h2] at hb; exact absurd hb (by simp)
  rw [if_neg h2] at hb
  cases hparsed : parsed with
  | error e => rw [hparsed] at hb; exact absurd hb (by simp)
  | ok t =>
  rw [hparsed] at hb
  simp only [] at hb
  by_cases hfrom : chooseNonEmpty t.tFrom cfg.From = ""
  · rw [if_pos hfrom] at hb; exact absurd hb (by simp)
  rw [if_neg hfrom] at hb
  cases hrf : rend (chooseNonEmpty t.tFrom cfg.From) with
  | error e => rw [hrf] at hb; exact absurd hb (by simp)
  | ok fromV =>
  rw [hrf] at hb
  simp only [] at hb
  by_cases hto : chooseNonEmpty t.tTo cfg.To = ""
  · rw [if_pos hto] at hb; exact absurd hb (by simp)
  rw [if_neg hto] at hb
  cases hrt : rend (chooseNonEmpty t.tTo cfg.To) with
  | error e => rw [hrt] at hb; exact absurd hb (by simp)
  | ok toV =>
  rw [hrt] at hb
  simp only [] at hb
  cases hcc : resolveOptional rend "Cc" (chooseNonEmpty t.tCc cfg.Cc)
      (hSet (hSet [] "From" fromV) "To" toV) with
  | error e => rw [hcc] at hb; exact absurd hb (by simp)
  | ok hdr3 =>
  rw [hcc] at hb
  simp only [] at hb
  cases hbcc : resolveOptional rend "Bcc" (chooseNonEmpty t.tBcc cfg.Bcc) hdr3 with
  | error e => rw [hbcc] at hb; exact absurd hb (by simp)
  | ok hdr4 =>
  rw [hbcc] at hb
  simp only [] at hb
  cases hrs : rend (if t.tSubject = "" then "(no subject)" else t.tSubject) with
  | error e => rw [hrs] at hb; exact absurd hb (by simp)
  | ok subjV =>
  rw [hrs] at hb
  simp only [] at hb
  by_cases hatt : cfg.Attachments = []
  · rw [if_pos hatt] at hb
    simp only [Except.ok.injEq, Prod.mk.injEq] at hb
    obtain ⟨_, hbuilt⟩ := hb
    subst hbuilt
    exact Or.inl ⟨hatt, rfl⟩
  · rw [if_neg hatt] at hb
    cases hra : readAttachments fs cfg.Attachments with
    | error e => rw [hra] at hb; exact absurd hb (by simp)
    | ok parts =>
    rw [hra] at hb
    simp only [Except.ok.injEq, Prod.mk.injEq] at hb
    obtain ⟨_, hbuilt⟩ := hb
    subst hbuilt
    exact Or.inr rfl

/-- C7: when all attachment files read successfully, the assembled
multipart message has exactly N+1 parts — the text part first, then one
part per attachment path in list order — and every attachment part is
base64 with lines of at most 76 octets whose decoded payload is exactly
the original file bytes. -/
theorem c7_attachment_parts
    (cfg : EmailConfig) (parsed : Except String Tpl)
    (rend : String → Except String String) (subjEnc : String → String)
    (boundary bodyOut : String) (bodyErr : Option String) (date : String)
    (fs : String → Except String (List Nat)) (fv : String) (built : BuiltMsg)
    (hb : buildMessage cfg parsed rend subjEnc boundary bodyOut bodyErr date fs =
      .ok (fv, built))
    (hatt : cfg.Attachments ≠ [])
    (hbytes : ∀ pb ∈ built.parts, ∀ x ∈ pb.2, x < 256) :
    (msgParts built).length = cfg.Attachments.length + 1 ∧
    (msgParts built).head? = some (.text built.textCTE built.textWritten) ∧
    built.parts.map Prod.fst = cfg.Attachments ∧
    (∀ pb ∈ built.parts, fs pb.1 = .ok pb.2 ∧
      b64DecodePayload (base64PartContent pb.2) = pb.2 ∧
      ∀ l ∈ encodeAndWrapBase64 pb.2, l.length ≤ 76) := by
  rcases buildMessage_parts hb with ⟨h1, _⟩ | hread
  · exact absurd h1 hatt
  obtain ⟨hmap, hfs⟩ := readAttachments_ok hread
  refine ⟨?_, rfl, hmap, ?_⟩
  · unfold msgParts
    simp only [List.length_cons, List.length_map]
    have : built.parts.length = cfg.Attachments.length := by
      rw [← hmap, List.length_map]
    omega
  · intro pb hpb
    obtain ⟨hd, hl⟩ := base64_part_roundtrip pb.2 (hbytes pb hpb)
    exact ⟨hfs pb hpb, hd, hl⟩

/-- C7 witness: one attachment read from the oracle filesystem produces a
two-part message whose attachment payload decodes back to the file
bytes. -/
theorem c7_attachment_parts_witness :
    ((buildMessage c7cfg (.ok c7tpl) Except.ok id "b" "body" none "date" c7fs).map
      (fun r => ((msgParts r.2).length, r.2.parts.map Prod.fst,
        r.2.parts.all (fun pb =>
          decide (b64DecodePayload (base64PartContent pb.2) = pb.2))))).toOption =
      some (2, ["a.txt"], true) := by
  cases hb : buildMessage c7cfg (.ok c7tpl) Except.ok id "b" "body" none "date" c7fs with
  | error e =>
    have hok : ((buildMessage c7cfg (.ok c7tpl) Except.ok id "b" "body" none "date"
        c7fs).toOption).isSome = true := by decide
    rw [hb] at hok
    simp [Except.toOption] at hok
  | ok p =>
    have hbytes : ∀ pb ∈ p.2.parts, ∀ x ∈ pb.2, x < 256 := by
      have h1 : ((buildMessage c7cfg (.ok c7tpl) Except.ok id "b" "body" none "date"
          c7fs).map (fun r => r.2.parts.all (fun pb =>
            pb.2.all (fun x => decide (x < 256))))).toOption = some true := by decide
      rw [hb] at h1
      simp only [Except.map, Except.toOption, Option.some.injEq] at h1
      intro pb hpb x hx
      rw [List.all_eq_true] at h1
      have := h1 pb hpb
      rw [List.all_eq_true] at this
      simpa using this x hx
    obtain ⟨hlen, hhead, hmap, hparts⟩ := c7_attachment_parts c7cfg (.ok c7tpl)
      Except.ok id "b" "body" none "date" c7fs p.1 p.2 (by rw [hb]) (by decide) hbytes
    show some ((msgParts p.2).length, p.2.parts.map Prod.fst,
      p.2.parts.all (fun pb =>
        decide (b64DecodePayload (base64PartContent pb.2) = pb.2))) = _
    rw [hlen, hmap]
    have hall : p.2.parts.all (fun pb =>
        decide (b64DecodePayload (base64PartContent pb.2) = pb.2)) = true := by
      rw [List.all_eq_true]
      intro pb hpb
      simpa using (hparts pb hpb).2.1
    rw [hall]
    rfl

theorem hexDigit_props (n : Nat) :
    isHexUpperByte (hexDigit n) = true ∧ hexDigit n ≠ 61 ∧
      hexDigit n ≠ 13 ∧ hexDigit n ≠ 10 ∧ hexDigit n ≠ 32 ∧ hexDigit n ≠ 9 := by
  by_cases h : n < 16
  · have hall : ∀ j, j < 16 → isHexUpperByte (hexDigit j) = true ∧ hexDigit j ≠ 61 ∧
        hexDigit j ≠ 13 ∧ hexDigit j ≠ 10 ∧ hexDigit j ≠ 32 ∧ hexDigit j ≠ 9 := by decide
    exact hall n h
  · unfold hexDigit
    rw [List.getD_eq_default]
    · exact ⟨by decide, by omega, by omega, by omega, by omega, by omega⟩
    · have : (strBytes "0123456789ABCDEF").length = 16 := by decide
      omega

theorem qpInv_softBreak {st : QPState} (h : QPInv st) : QPInv (qpSoftBreak st) := by
  obtain ⟨h1, h2, h3, h4⟩ := h
  refine ⟨by simp [qpSoftBreak], ?_, by simp [qpSoftBreak], ?_⟩
  · intro l hl
    simp only [qpSoftBreak, List.mem_append, List.mem_singleton] at hl
    rcases hl with hl | rfl
    · exact h2 l hl
    · simp only [List.length_append, List.length_singleton]
      omega
  · intro l hl
    simp only [qpSoftBreak, List.mem_append, List.mem_singleton] at hl
    rcases hl with hl | rfl
    · exact h4 l hl
    · intro b hb
      simp only [List.mem_append, List.mem_singleton] at hb
      rcases hb with hb | rfl
      · exact h3 b hb
      · exact ⟨by omega, by omega⟩

theorem qpInv_insertCRLF {st : QPState} (h : QPInv st) : QPInv (qpInsertCRLF st) := by
  obtain ⟨h1, h2, h3, h4⟩ := h
  refine ⟨by simp [qpInsertCRLF], ?_, by simp [qpInsertCRLF], ?_⟩
  · intro l hl
    simp only [qpInsertCRLF, List.mem_append, List.mem_singleton] at hl
    rcases hl with hl | rfl
    · exact h2 l hl
    · omega
  · intro l hl
    simp only [qpInsertCRLF, List.mem_append, List.mem_singleton] at hl
    rcases hl with hl | rfl
    · exact h4 l hl
    · exact h3

theorem qpInv_encodeByte (st : QPState) (h : QPInv st) (b : Nat) :
    QPInv (qpEncodeByte st b) := by
  obtain ⟨h1, h2, h3, h4⟩ := h
  unfold qpEncodeByte
  split
  · next hsb =>
    have hinv := qpInv_softBreak ⟨h1, h2, h3, h4⟩
    obtain ⟨g1, g2, g3, g4⟩ := hinv
    refine ⟨?_, g2, ?_, g4⟩
    · simp [qpSoftBreak]
    · intro x hx
      simp only [qpSoftBreak, List.nil_append, List.mem_cons] at hx
      rcases hx with rfl | rfl | rfl | hx
      · exact ⟨by omega, by omega⟩
      · exact ⟨(hexDigit_props _).2.2.1, (hexDigit_props _).2.2.2.1⟩
      · exact ⟨(hexDigit_props _).2.2.1, (hexDigit_props _).2.2.2.1⟩
      · simp at hx
  · next hsb =>
    refine ⟨?_, h2, ?_, h4⟩
    · simp only [List.length_append]
      simp only [List.length_cons, List.length_nil]
      omega
    · intro x hx
      simp only [List.mem_append, List.mem_cons] at hx
      rcases hx with hx | rfl | rfl | rfl | hx
      · exact h3 x hx
      · exact ⟨by omega, by omega⟩
      · exact ⟨(hexDigit_props _).2.2.1, (hexDigit_props _).2.2.2.1⟩
      · exact ⟨(hexDigit_props _).2.2.1, (hexDigit_props _).2.2.2.1⟩
      · simp at hx

theorem qpInv_checkLastByte {st : QPState} (h : QPInv st) : QPInv (qpCheckLastByte st) := by
  obtain ⟨h1, h2, h3, h4⟩ := h
  unfold qpCheckLastByte
  split
  · next b heq =>
    split
    · refine qpInv_encodeByte { lines := st.lines, cur := st.cur.dropLast, cr := st.cr } ⟨?_, h2, ?_, h4⟩ b
      · simp only [List.length_dropLast]
        omega
      · intro x hx
        exact h3 x (List.dropLast_subset _ hx)
    · exact ⟨h1, h2, h3, h4⟩
  · exact ⟨h1, h2, h3, h4⟩

theorem qpInv_step {st : QPState} (h : QPInv st) (b : Nat) : QPInv (qpStep st b) := by
  unfold qpStep
  split
  · split
    · exact ⟨h.curLen, h.linesLen, h.curClean, h.linesClean⟩
    · exact qpInv_insertCRLF (qpInv_checkLastByte ⟨h.curLen, h.linesLen, h.curClean, h.linesClean⟩)
  · split
    · next hlit =>
      split
      · next hfull =>
        have hsb := qpInv_softBreak h
        refine ⟨?_, hsb.linesLen, ?_, hsb.linesClean⟩
        · simp [qpSoftBreak]
        · intro x hx
          simp only [qpSoftBreak, List.nil_append, List.mem_singleton] at hx
          subst hx
          rcases hlit with ⟨_, _, _⟩ | rfl | rfl
          · constructor <;> omega
          · exact ⟨by omega, by omega⟩
          · exact ⟨by omega, by omega⟩
      · next hfull =>
        refine ⟨?_, h.linesLen, ?_, h.linesClean⟩
        · simp only [List.length_append, List.length_singleton]
          have := h.curLen
          omega
        · intro x hx
          simp only [List.mem_append, List.mem_singleton] at hx
          rcases hx with hx | rfl
          · exact h.curClean x hx
          · rcases hlit with ⟨_, _, _⟩ | rfl | rfl
            · constructor <;> omega
            · exact ⟨by omega, by omega⟩
            · exact ⟨by omega, by omega⟩
    · exact qpInv_encodeByte st h b

theorem qpInv_final (s : List Nat) : QPInv (qpFinal s) := by
  have hfold : QPInv (s.foldl qpStep qpInit) := by
    have : ∀ (l : List Nat) (st : QPState), QPInv st → QPInv (l.foldl qpStep st) := by
      intro l
      induction l with
      | nil => intro st h; exact h
      | cons b rest ih => intro st h; exact ih _ (qpInv_step h b)
    exact this s qpInit ⟨by simp [qpInit], by simp [qpInit], by simp [qpInit], by simp [qpInit]⟩
  exact qpInv_checkLastByte hfold

/-- Every line of the quoted-printable output is at most 76 octets. -/
theorem qpEncodeLines_le (s : List Nat) : ∀ l ∈ qpEncodeLines s, l.length ≤ 76 := by
  intro l hl
  have h := qpInv_final s
  unfold qpEncodeLines at hl
  simp only [List.mem_append, List.mem_singleton] at hl
  rcases hl with hl | rfl
  · exact h.linesLen l hl
  · have := h.curLen
    omega

/-- No line of the quoted-printable output contains a CR or LF. -/
theorem qpEncodeLines_clean (s : List Nat) :
    ∀ l ∈ qpEncodeLines s, ∀ b ∈ l, b ≠ 13 ∧ b ≠ 10 := by
  intro l hl
  have h := qpInv_final s
  unfold qpEncodeLines at hl
  simp only [List.mem_append, List.mem_singleton] at hl
  rcases hl with hl | rfl
  · exact h.linesClean l hl
  · exact h.curClean

theorem hexVal_hexDigit (n : Nat) (h : n < 16) : hexVal (hexDigit n) = n := by
  have hall : ∀ j, j < 16 → hexVal (hexDigit j) = j := by decide
  exact hall n h

theorem dropLast_append_getLast? {l : List Nat} {w : Nat} (h : l.getLast? = some w) :
    l.dropLast ++ [w] = l := by
  induction l with
  | nil => simp at h
  | cons a t ih =>
    cases t with
    | nil =>
      simp only [List.getLast?_singleton, Option.some.injEq] at h
      subst h
      rfl
    | cons b u =>
      rw [List.getLast?_cons_cons] at h
      have := ih h
      rw [List.dropLast_cons₂, List.cons_append, this]

theorem qpDecode_cons_lit (b : Nat) (hb : b ≠ 61) (rest : List Nat) :
    qpDecode (b :: rest) = b :: qpDecode rest := by
  conv_lhs => rw [qpDecode.eq_def]
  simp [hb]

theorem qpDecode_cons_esc (h l : Nat) (hh : isHexUpperByte h = true) (rest : List Nat) :
    qpDecode (61 :: h :: l :: rest) = (hexVal h * 16 + hexVal l) :: qpDecode rest := by
  have hne : ¬(h = 13 ∧ l = 10) := by
    simp only [isHexUpperByte, decide_eq_true_eq] at hh
    omega
  conv_lhs => rw [qpDecode.eq_def]
  simp [hne]

theorem qpDecode_cons_soft (rest : List Nat) :
    qpDecode (61 :: 13 :: 10 :: rest) = qpDecode rest := by
  conv_lhs => rw [qpDecode.eq_def]
  simp

theorem qpchunks_append {a t : List Nat} (ha : QPChunks a) (ht : QPChunks t) :
    QPChunks (a ++ t) := by
  induction ha with
  | nil => exact ht
  | lit b rest h1 h2 h3 _ ih => exact QPChunks.lit b _ h1 h2 h3 ih
  | esc h l rest hh hl _ ih => exact QPChunks.esc h l _ hh hl ih
  | soft rest _ ih => exact QPChunks.soft _ ih
  | crlf rest _ ih => exact QPChunks.crlf _ ih

theorem qpDecode_append {a : List Nat} (t : List Nat) (ha : QPChunks a) :
    qpDecode (a ++ t) = qpDecode a ++ qpDecode t := by
  induction ha with
  | nil => rw [List.nil_append]; rfl
  | lit b rest h1 h2 h3 _ ih =>
    rw [List.cons_append, qpDecode_cons_lit b h1 (rest ++ t), qpDecode_cons_lit b h1 rest,
      ih, List.cons_append]
  | esc h l rest hh hl _ ih =>
    rw [List.cons_append, List.cons_append, List.cons_append,
      qpDecode_cons_esc h l hh (rest ++ t), qpDecode_cons_esc h l hh rest, ih,
      List.cons_append]
  | soft rest _ ih =>
    rw [List.cons_append, List.cons_append, List.cons_append,
      qpDecode_cons_soft (rest ++ t), qpDecode_cons_soft rest, ih]
  | crlf rest _ ih =>
    rw [List.cons_append, List.cons_append, qpDecode_cons_lit 13 (by omega) (10 :: (rest ++ t)),
      qpDecode_cons_lit 10 (by omega) (rest ++ t), qpDecode_cons_lit 13 (by omega) (10 :: rest),
      qpDecode_cons_lit 10 (by omega) rest, ih, List.cons_append, List.cons_append]

theorem qpchunks_snoc_ws {l : List Nat} {w : Nat} (hc : QPChunks l)
    (hlast : l.getLast? = some w) (hw : w = 32 ∨ w = 9) :
    QPChunks l.dropLast ∧ qpDecode l = qpDecode l.dropLast ++ [w] := by
  induction hc with
  | nil => simp at hlast
  | lit b rest h1 h2 h3 hrest ih =>
    cases rest with
    | nil =>
      simp only [List.getLast?_singleton, Option.some.injEq] at hlast
      subst hlast
      exact ⟨QPChunks.nil, by rw [qpDecode_cons_lit _ h1 []]; rfl⟩
    | cons r rs =>
      rw [List.getLast?_cons_cons] at hlast
      obtain ⟨ihc, ihd⟩ := ih hlast
      have hdrop : (b :: r :: rs).dropLast = b :: (r :: rs).dropLast := by
        simp [List.dropLast_cons₂]
      refine ⟨?_, ?_⟩
      · rw [hdrop]; exact QPChunks.lit b _ h1 h2 h3 ihc
      · rw [hdrop, qpDecode_cons_lit b h1 (r :: rs), qpDecode_cons_lit b h1 ((r :: rs).dropLast),
          ihd, List.cons_append]
  | esc h l rest hh hl hrest ih =>
    cases rest with
    | nil =>
      have : (61 :: h :: l :: ([] : List Nat)).getLast? = some l := by rfl
      rw [this] at hlast
      obtain rfl := Option.some.injEq .. ▸ hlast
      simp only [isHexUpperByte, decide_eq_true_eq] at hl
      omega
    | cons r rs =>
      have hget : (61 :: h :: l :: r :: rs).getLast? = (r :: rs).getLast? := by
        rw [List.getLast?_cons_cons, List.getLast?_cons_cons, List.getLast?_cons_cons]
      rw [hget] at hlast
      obtain ⟨ihc, ihd⟩ := ih hlast
      have hdrop : (61 :: h :: l :: r :: rs).dropLast = 61 :: h :: l :: (r :: rs).dropLast := by
        simp [List.dropLast_cons₂]
      refine ⟨?_, ?_⟩
      · rw [hdrop]; exact QPChunks.esc h l _ hh hl ihc
      · rw [hdrop, qpDecode_cons_esc h l hh (r :: rs), qpDecode_cons_esc h l hh ((r :: rs).dropLast),
          ihd, List.cons_append]
  | soft rest hrest ih =>
    cases rest with
    | nil =>
      have : (61 :: 13 :: 10 :: ([] : List Nat)).getLast? = some 10 := by rfl
      rw [this] at hlast
      obtain rfl := Option.some.injEq .. ▸ hlast
      omega
    | cons r rs =>
      have hget : (61 :: 13 :: 10 :: r :: rs).getLast? = (r :: rs).getLast? := by
        rw [List.getLast?_cons_cons, List.getLast?_cons_cons, List.getLast?_cons_cons]
      rw [hget] at hlast
      obtain ⟨ihc, ihd⟩ := ih hlast
      have hdrop : (61 :: 13 :: 10 :: r :: rs).dropLast = 61 :: 13 :: 10 :: (r :: rs).dropLast := by
        simp [List.dropLast_cons₂]
      refine ⟨?_, ?_⟩
      · rw [hdrop]; exact QPChunks.soft _ ihc
      · rw [hdrop, qpDecode_cons_soft (r :: rs), qpDecode_cons_soft ((r :: rs).dropLast), ihd]
  | crlf rest hrest ih =>
    cases rest with
    | nil =>
      have : (13 :: 10 :: ([] : List Nat)).getLast? = some 10 := by rfl
      rw [this] at hlast
      obtain rfl := Option.some.injEq .. ▸ hlast
      omega
    | cons r rs =>
      have hget : (13 :: 10 :: r :: rs).getLast? = (r :: rs).getLast? := by
        rw [List.getLast?_cons_cons, List.getLast?_cons_cons]
      rw [hget] at hlast
      obtain ⟨ihc, ihd⟩ := ih hlast
      have hdrop : (13 :: 10 :: r :: rs).dropLast = 13 :: 10 :: (r :: rs).dropLast := by
        simp [List.dropLast_cons₂]
      refine ⟨?_, ?_⟩
      · rw [hdrop]; exact QPChunks.crlf _ ihc
      · rw [hdrop, qpDecode_cons_lit 13 (by omega) (10 :: r :: rs),
          qpDecode_cons_lit 10 (by omega) (r :: rs),
          qpDecode_cons_lit 13 (by omega) (10 :: (r :: rs).dropLast),
          qpDecode_cons_lit 10 (by omega) ((r :: rs).dropLast), ihd,
          List.cons_append, List.cons_append]

theorem qpRender_softBreak (st : QPState) :
    qpRender (qpSoftBreak st) = qpRender st ++ [61, 13, 10] := by
  simp [qpRender, qpSoftBreak, List.flatten_append, List.append_assoc]

theorem qpRender_insertCRLF (st : QPState) :
    qpRender (qpInsertCRLF st) = qpRender st ++ [13, 10] := by
  simp [qpRender, qpInsertCRLF, List.flatten_append, List.append_assoc]

theorem qpRender_encodeByte (st : QPState) (b : Nat) :
    qpRender (qpEncodeByte st b) = qpRender st ++
      (if 75 - st.cur.length < 3 then [61, 13, 10] else []) ++
      [61, hexDigit (b / 16), hexDigit (b % 16)] := by
  by_cases h : 75 - st.cur.length < 3
  · simp only [qpEncodeByte, if_pos h]
    simp [qpRender, qpSoftBreak, List.flatten_append, List.append_assoc]
  · simp only [qpEncodeByte, if_neg h]
    simp [qpRender, List.append_assoc]

theorem qpSoftBreak_cr (st : QPState) : (qpSoftBreak st).cr = st.cr := rfl

theorem qpInsertCRLF_cr (st : QPState) : (qpInsertCRLF st).cr = st.cr := rfl

theorem qpEncodeByte_cr (st : QPState) (b : Nat) : (qpEncodeByte st b).cr = st.cr := by
  unfold qpEncodeByte
  split <;> rfl

theorem qpCheckLastByte_cr (st : QPState) : (qpCheckLastByte st).cr = st.cr := by
  unfold qpCheckLastByte
  split
  · split
    · rw [qpEncodeByte_cr]
    · rfl
  · rfl

theorem qpEncodeByte_rel (st : QPState) (b : Nat) (hch : QPChunks (qpRender st))
    (hb : b < 256) :
    QPChunks (qpRender (qpEncodeByte st b)) ∧
      qpDecode (qpRender (qpEncodeByte st b)) = qpDecode (qpRender st) ++ [b] := by
  rw [qpRender_encodeByte]
  have hesc : QPChunks [61, hexDigit (b / 16), hexDigit (b % 16)] :=
    QPChunks.esc _ _ _ (hexDigit_props _).1 (hexDigit_props _).1 QPChunks.nil
  have hval : hexVal (hexDigit (b / 16)) * 16 + hexVal (hexDigit (b % 16)) = b := by
    rw [hexVal_hexDigit _ (by omega), hexVal_hexDigit _ (by omega)]
    omega
  by_cases h : 75 - st.cur.length < 3
  · rw [if_pos h]
    have htail : QPChunks ([61, 13, 10] ++ [61, hexDigit (b / 16), hexDigit (b % 16)]) :=
      QPChunks.soft _ hesc
    refine ⟨?_, ?_⟩
    · rw [List.append_assoc]
      exact qpchunks_append hch htail
    · rw [List.append_assoc, qpDecode_append _ hch]
      have : qpDecode ([61, 13, 10] ++ [61, hexDigit (b / 16), hexDigit (b % 16)]) = [b] := by
        rw [show ([61, 13, 10] ++ [61, hexDigit (b / 16), hexDigit (b % 16)] : List Nat) =
          61 :: 13 :: 10 :: [61, hexDigit (b / 16), hexDigit (b % 16)] from rfl]
        rw [qpDecode_cons_soft, qpDecode_cons_esc _ _ (hexDigit_props _).1, hval]
        rfl
      rw [this]
  · rw [if_neg h]
    refine ⟨?_, ?_⟩
    · rw [List.append_nil]
      exact qpchunks_append hch hesc
    · rw [List.append_nil, qpDecode_append _ hch,
        qpDecode_cons_esc _ _ (hexDigit_props _).1, hval]
      rfl

theorem qpCheckLastByte_rel (st : QPState) (hch : QPChunks (qpRender st)) :
    QPChunks (qpRender (qpCheckLastByte st)) ∧
      qpDecode (qpRender (qpCheckLastByte st)) = qpDecode (qpRender st) := by
  unfold qpCheckLastByte
  split
  · next w hw =>
    split
    · next hws =>
      have hcur : st.cur.dropLast ++ [w] = st.cur := dropLast_append_getLast? hw
      have hrend : qpRender st =
          qpRender { st with cur := st.cur.dropLast } ++ [w] := by
        simp only [qpRender]
        rw [List.append_assoc, hcur]
      have hlastR : (qpRender st).getLast? = some w := by
        rw [hrend]
        exact List.getLast?_concat _
      obtain ⟨hcD, hdD⟩ := qpchunks_snoc_ws hch hlastR hws
      have hDL : (qpRender st).dropLast = qpRender { st with cur := st.cur.dropLast } := by
        rw [hrend, List.dropLast_concat]
      rw [hDL] at hcD hdD
      obtain ⟨hc2, hd2⟩ := qpEncodeByte_rel { st with cur := st.cur.dropLast } w hcD
        (by rcases hws with rfl | rfl <;> omega)
      refine ⟨hc2, ?_⟩
      rw [hd2, hdD]
    · exact ⟨hch, rfl⟩
  · exact ⟨hch, rfl⟩

theorem lfToCrlf_append (a t : List Nat) :
    lfToCrlf (a ++ t) = lfToCrlf a ++ lfToCrlf t := by
  simp [lfToCrlf]

theorem qpStep_eq_nl (st : QPState) (b : Nat) (h1 : b = 10 ∨ b = 13)
    (h2 : ¬(st.cr ∧ b = 10)) :
    qpStep st b = qpInsertCRLF (qpCheckLastByte { st with cr := decide (b = 13) }) := by
  unfold qpStep
  rw [if_pos h1, if_neg h2]

theorem qpStep_eq_lit_nofull (st : QPState) (b : Nat) (h1 : ¬(b = 10 ∨ b = 13))
    (h2 : (33 ≤ b ∧ b ≤ 126 ∧ b ≠ 61) ∨ b = 32 ∨ b = 9)
    (h3 : ¬(st.cur.length = 75)) :
    qpStep st b = { st with cur := st.cur ++ [b], cr := false } := by
  unfold qpStep
  rw [if_neg h1, if_pos h2]
  simp only [if_neg h3]

theorem qpStep_eq_lit_full (st : QPState) (b : Nat) (h1 : ¬(b = 10 ∨ b = 13))
    (h2 : (33 ≤ b ∧ b ≤ 126 ∧ b ≠ 61) ∨ b = 32 ∨ b = 9)
    (h3 : st.cur.length = 75) :
    qpStep st b = { qpSoftBreak st with cur := (qpSoftBreak st).cur ++ [b], cr := false } := by
  unfold qpStep
  rw [if_neg h1, if_pos h2]
  simp only [if_pos h3]

theorem qpStep_eq_esc (st : QPState) (b : Nat) (h1 : ¬(b = 10 ∨ b = 13))
    (h2 : ¬((33 ≤ b ∧ b ≤ 126 ∧ b ≠ 61) ∨ b = 32 ∨ b = 9)) :
    qpStep st b = qpEncodeByte st b := by
  unfold qpStep
  rw [if_neg h1, if_neg h2]

theorem qpRender_pushByte (st : QPState) (b : Nat) :
    qpRender { st with cur := st.cur ++ [b], cr := false } = qpRender st ++ [b] := by
  simp [qpRender, List.append_assoc]

theorem qpStep_rel (st : QPState) (b : Nat) (pref : List Nat)
    (hb13 : b ≠ 13) (hb : b < 256) (hcr : st.cr = false)
    (hch : QPChunks (qpRender st))
    (hdec : qpDecode (qpRender st) = lfToCrlf pref) :
    (qpStep st b).cr = false ∧ QPChunks (qpRender (qpStep st b)) ∧
      qpDecode (qpRender (qpStep st b)) = lfToCrlf (pref ++ [b]) := by
  have hlf : lfToCrlf (pref ++ [b]) = lfToCrlf pref ++ (if b = 10 then [13, 10] else [b]) := by
    rw [lfToCrlf_append]
    simp [lfToCrlf]
  by_cases h1 : b = 10 ∨ b = 13
  · have hb10 : b = 10 := by
      rcases h1 with rfl | rfl
      · rfl
      · exact absurd rfl hb13
    subst hb10
    rw [qpStep_eq_nl st 10 h1 (by simp [hcr])]
    have hr : qpRender { st with cr := decide ((10 : Nat) = 13) } = qpRender st := rfl
    obtain ⟨hc1, hd1⟩ := qpCheckLastByte_rel { st with cr := decide ((10 : Nat) = 13) }
      (by rw [hr]; exact hch)
    refine ⟨?_, ?_, ?_⟩
    · rw [qpInsertCRLF_cr, qpCheckLastByte_cr]
      rfl
    · rw [qpRender_insertCRLF]
      exact qpchunks_append hc1 (QPChunks.crlf _ QPChunks.nil)
    · rw [qpRender_insertCRLF, qpDecode_append _ hc1, hd1, hr, hdec, hlf,
        qpDecode_cons_lit 13 (by omega) [10], qpDecode_cons_lit 10 (by omega) [],
        show qpDecode ([] : List Nat) = [] from rfl]
      simp
  · have hb10 : b ≠ 10 := fun h => h1 (Or.inl h)
    have hlf2 : lfToCrlf (pref ++ [b]) = lfToCrlf pref ++ [b] := by
      rw [hlf, if_neg hb10]
    by_cases h2 : (33 ≤ b ∧ b ≤ 126 ∧ b ≠ 61) ∨ b = 32 ∨ b = 9
    · have hbprops : b ≠ 61 ∧ b ≠ 13 ∧ b ≠ 10 := by
        rcases h2 with ⟨_, _, h⟩ | rfl | rfl
        · exact ⟨h, hb13, hb10⟩
        · exact ⟨by omega, by omega, by omega⟩
        · exact ⟨by omega, by omega, by omega⟩
      have hlit : QPChunks [b] := QPChunks.lit b [] hbprops.1 hbprops.2.1 hbprops.2.2 QPChunks.nil
      by_cases h3 : st.cur.length = 75
      · rw [qpStep_eq_lit_full st b h1 h2 h3]
        refine ⟨rfl, ?_, ?_⟩
        · rw [qpRender_pushByte, qpRender_softBreak, List.append_assoc]
          exact qpchunks_append hch (qpchunks_append (QPChunks.soft _ QPChunks.nil) hlit)
        · rw [qpRender_pushByte, qpRender_softBreak, List.append_assoc,
            qpDecode_append _ hch, hdec, hlf2,
            show ([61, 13, 10] ++ [b] : List Nat) = 61 :: 13 :: 10 :: [b] from rfl,
            qpDecode_cons_soft [b], qpDecode_cons_lit b hbprops.1 [],
            show qpDecode ([] : List Nat) = [] from rfl]
      · rw [qpStep_eq_lit_nofull st b h1 h2 h3]
        refine ⟨rfl, ?_, ?_⟩
        · rw [qpRender_pushByte]
          exact qpchunks_append hch hlit
        · rw [qpRender_pushByte, qpDecode_append _ hch, hdec, hlf2,
            qpDecode_cons_lit b hbprops.1 [], show qpDecode ([] : List Nat) = [] from rfl]
    · rw [qpStep_eq_esc st b h1 h2]
      obtain ⟨hc1, hd1⟩ := qpEncodeByte_rel st b hch hb
      refine ⟨?_, hc1, ?_⟩
      · rw [qpEncodeByte_cr, hcr]
      · rw [hd1, hdec, hlf2]

theorem qpFoldl_rel (s : List Nat) : ∀ (st : QPState) (pref : List Nat),
    (∀ b ∈ s, b ≠ 13 ∧ b < 256) → st.cr = false → QPChunks (qpRender st) →
    qpDecode (qpRender st) = lfToCrlf pref →
    (s.foldl qpStep st).cr = false ∧ QPChunks (qpRender (s.foldl qpStep st)) ∧
      qpDecode (qpRender (s.foldl qpStep st)) = lfToCrlf (pref ++ s) := by
  induction s with
  | nil =>
    intro st pref _ h1 h2 h3
    exact ⟨h1, h2, by rw [List.append_nil]; exact h3⟩
  | cons b rest ih =>
    intro st pref hmem h1 h2 h3
    obtain ⟨hb13, hb256⟩ := hmem b (List.mem_cons_self ..)
    obtain ⟨g1, g2, g3⟩ := qpStep_rel st b pref hb13 hb256 h1 h2 h3
    have hres := ih (qpStep st b) (pref ++ [b])
      (fun x hx => hmem x (List.mem_cons_of_mem _ hx)) g1 g2 g3
    rw [List.foldl_cons]
    rw [show pref ++ b :: rest = (pref ++ [b]) ++ rest by simp]
    exact hres

/-- Round trip of the quoted-printable writer: on CR-free byte input,
decoding the encoding recovers the input with each LF expanded to CRLF. -/
theorem qpRoundTrip (s : List Nat) (h13 : ∀ b ∈ s, b ≠ 13 ∧ b < 256) :
    qpDecode (qpEncode s) = lfToCrlf s := by
  have hinit : qpDecode (qpRender qpInit) = lfToCrlf [] := rfl
  obtain ⟨g1, g2, g3⟩ := qpFoldl_rel s qpInit [] h13 rfl QPChunks.nil hinit
  unfold qpEncode qpFinal
  obtain ⟨d1, d2⟩ := qpCheckLastByte_rel _ g2
  rw [d2, g3, List.nil_append]

theorem stripCRLF_cons_ne13 {b : Nat} (hb : b ≠ 13) (x : List Nat) :
    stripCRLF (b :: x) = b :: stripCRLF x := by
  cases x with
  | nil => rfl
  | cons c r =>
    conv_lhs => rw [stripCRLF.eq_def]
    simp [hb]

theorem stripCRLF_crlf (rest : List Nat) :
    stripCRLF (13 :: 10 :: rest) = stripCRLF rest := by
  conv_lhs => rw [stripCRLF.eq_def]
  simp

theorem stripCRLF_clean_append {a : List Nat} (t : List Nat)
    (ha : ∀ b ∈ a, b ≠ 13) : stripCRLF (a ++ t) = a ++ stripCRLF t := by
  induction a with
  | nil => rfl
  | cons b r ih =>
    rw [List.cons_append, stripCRLF_cons_ne13 (ha b (List.mem_cons_self ..)),
      ih (fun x hx => ha x (List.mem_cons_of_mem _ hx)), List.cons_append]

theorem stripCRLF_render_go (L : List (List Nat)) (cur : List Nat)
    (hL : ∀ l ∈ L, ∀ b ∈ l, b ≠ 13 ∧ b ≠ 10) (hcur : ∀ b ∈ cur, b ≠ 13 ∧ b ≠ 10) :
    stripCRLF ((L.map (fun l => l ++ [13, 10])).flatten ++ cur) = L.flatten ++ cur := by
  induction L with
  | nil =>
    rw [show ((List.map (fun l => l ++ [13, 10]) [] : List (List Nat)).flatten ++ cur) = cur
      from rfl]
    rw [show (([] : List (List Nat)).flatten ++ cur) = cur from rfl]
    rw [show cur = cur ++ [] from (List.append_nil cur).symm]
    rw [stripCRLF_clean_append [] (fun b hb => by
      have := hcur b (by simpa using hb)
      exact this.1)]
    rfl
  | cons l L' ih =>
    have hl := hL l (List.mem_cons_self ..)
    have hL' : ∀ x ∈ L', ∀ b ∈ x, b ≠ 13 ∧ b ≠ 10 :=
      fun x hx => hL x (List.mem_cons_of_mem _ hx)
    rw [List.map_cons, List.flatten_cons, List.append_assoc, List.append_assoc,
      stripCRLF_clean_append _ (fun b hb => (hl b hb).1),
      show ([13, 10] ++ ((List.map (fun l => l ++ [13, 10]) L').flatten ++ cur)) =
        13 :: 10 :: ((List.map (fun l => l ++ [13, 10]) L').flatten ++ cur) from rfl,
      stripCRLF_crlf, ih hL', List.flatten_cons, List.append_assoc]

theorem stripCRLF_qpEncode (s : List Nat) :
    stripCRLF (qpEncode s) = (qpFinal s).lines.flatten ++ (qpFinal s).cur := by
  have h := qpInv_final s
  exact stripCRLF_render_go (qpFinal s).lines (qpFinal s).cur h.linesClean h.curClean

theorem stripCRLF_qpEncode_clean (s : List Nat) :
    ∀ b ∈ stripCRLF (qpEncode s), b ≠ 13 ∧ b ≠ 10 := by
  intro b hb
  rw [stripCRLF_qpEncode] at hb
  have h := qpInv_final s
  rcases List.mem_append.mp hb with hb | hb
  · obtain ⟨l, hl, hbl⟩ := List.mem_flatten.mp hb
    exact h.linesClean l hl b hbl
  · exact h.curClean b hb

theorem eqAllEscaped_cons_ne61 {b : Nat} (hb : b ≠ 61) (x : List Nat) :
    eqAllEscaped (b :: x) = eqAllEscaped x := by
  conv_lhs => rw [eqAllEscaped.eq_def]
  simp [hb]

theorem eqAllEscaped_esc (x : List Nat) :
    eqAllEscaped (61 :: 51 :: 68 :: x) = eqAllEscaped x := by
  conv_lhs => rw [eqAllEscaped.eq_def]
  simp

theorem eqAllEscaped_escapeEquals (q : List Nat) :
    eqAllEscaped (escapeEquals q) = true := by
  induction q with
  | nil => rfl
  | cons b r ih =>
    by_cases hb : b = 61
    · subst hb
      rw [show escapeEquals (61 :: r) = 61 :: 51 :: 68 :: escapeEquals r from by
        conv_lhs => rw [escapeEquals.eq_def]
        simp]
      rw [eqAllEscaped_esc, ih]
    · rw [show escapeEquals (b :: r) = b :: escapeEquals r from by
        conv_lhs => rw [escapeEquals.eq_def]
        simp [hb]]
      rw [eqAllEscaped_cons_ne61 hb, ih]

theorem mem_escapeEquals {q : List Nat} {b : Nat} (h : b ∈ escapeEquals q) :
    b ∈ q ∨ b = 51 ∨ b = 68 := by
  induction q with
  | nil => simp [escapeEquals] at h
  | cons c r ih =>
    by_cases hc : c = 61
    · subst hc
      rw [show escapeEquals (61 :: r) = 61 :: 51 :: 68 :: escapeEquals r from by
        conv_lhs => rw [escapeEquals.eq_def]
        simp] at h
      simp only [List.mem_cons] at h
      rcases h with rfl | rfl | rfl | h
      · exact Or.inl (List.mem_cons_self ..)
      · exact Or.inr (Or.inl rfl)
      · exact Or.inr (Or.inr rfl)
      · rcases ih h with h | h
        · exact Or.inl (List.mem_cons_of_mem _ h)
        · exact Or.inr h
    · rw [show escapeEquals (c :: r) = c :: escapeEquals r from by
        conv_lhs => rw [escapeEquals.eq_def]
        simp [hc]] at h
      simp only [List.mem_cons] at h
      rcases h with rfl | h
      · exact Or.inl (List.mem_cons_self ..)
      · rcases ih h with h | h
        · exact Or.inl (List.mem_cons_of_mem _ h)
        · exact Or.inr h

/-- C3: an all-ASCII subject passes through `encodingUTF8Subject` unchanged;
a subject with any non-ASCII byte is emitted as an RFC 2047 encoded word
`=?UTF-8?Q?` payload `?=` whose payload is the quoted-printable encoding
with the encoder's CRLF line breaks stripped and every `=` escaped as
`=3D`: every `=` in the payload opens a literal `=3D`, and the payload
contains no CR and no LF. -/
theorem c3_subject_encoding (s : List Nat) :
    (isASCII s = true → encodingUTF8Subject s = s) ∧
    (isASCII s = false →
      encodingUTF8Subject s =
        strBytes "=?UTF-8?Q?" ++ escapeEquals (stripCRLF (qpEncode s)) ++ strBytes "?=" ∧
      eqAllEscaped (escapeEquals (stripCRLF (qpEncode s))) = true ∧
      ∀ b ∈ escapeEquals (stripCRLF (qpEncode s)), b ≠ 13 ∧ b ≠ 10) := by
  constructor
  · intro h
    simp [encodingUTF8Subject, h]
  · intro h
    refine ⟨by simp [encodingUTF8Subject, h], eqAllEscaped_escapeEquals _, ?_⟩
    intro b hb
    rcases mem_escapeEquals hb with hmem | rfl | rfl
    · exact stripCRLF_qpEncode_clean s b hmem
    · exact ⟨by omega, by omega⟩
    · exact ⟨by omega, by omega⟩

/-- C3 witness: the ASCII subject "Hello" passes through unchanged, and the
non-ASCII subject 0x48 0xC3 0xA9 ("Hé") becomes an encoded word with a
fully escaped payload. -/
theorem c3_subject_encoding_witness :
    encodingUTF8Subject (strBytes "Hello") = strBytes "Hello" ∧
    encodingUTF8Subject [72, 195, 169] =
      strBytes "=?UTF-8?Q?" ++ escapeEquals (stripCRLF (qpEncode [72, 195, 169])) ++
        strBytes "?=" ∧
    eqAllEscaped (escapeEquals (stripCRLF (qpEncode [72, 195, 169]))) = true :=
  ⟨(c3_subject_encoding (strBytes "Hello")).1 (by decide),
   ((c3_subject_encoding [72, 195, 169]).2 (by decide)).1,
   ((c3_subject_encoding [72, 195, 169]).2 (by decide)).2.1⟩

/-- C2 (amended): if the rendered body is pure ASCII with no line over 76
octets, `writeTextPart` selects 7bit and sends the body bytes unmodified;
otherwise it selects quoted-printable and sends `qpEncode body`, every
output line of which is at most 76 octets, and for CR-free byte input the
output decodes back to the body with each LF expanded to CRLF (not to the
body verbatim). -/
theorem c2_text_encoding (body : List Nat) :
    (isASCII body = true → hasLongLines body = false →
      writeTextPart body = ("7bit", body)) ∧
    (isASCII body = false ∨ hasLongLines body = true →
      (writeTextPart body).1 = "quoted-printable" ∧
      (writeTextPart body).2 = qpEncode body ∧
      (∀ l ∈ qpEncodeLines body, l.length ≤ 76) ∧
      ((∀ b ∈ body, b ≠ 13 ∧ b < 256) →
        qpDecode ((writeTextPart body).2) = lfToCrlf body)) := by
  constructor
  · intro ha hl
    simp [writeTextPart, ha, hl]
  · intro h
    have hcond : (!(isASCII body) || hasLongLines body) = true := by
      rcases h with h | h <;> simp [h]
    have hw : writeTextPart body = ("quoted-printable", qpEncode body) := by
      simp [writeTextPart, hcond]
    refine ⟨by rw [hw], by rw [hw], qpEncodeLines_le body, ?_⟩
    intro hbytes
    rw [hw]
    exact qpRoundTrip body hbytes

set_option maxRecDepth 20000 in
/-- C2 counterexample to the original claim: a pure-ASCII body consisting
of a 77-byte line, an LF and one more byte is sent quoted-printable, but
the encoded output does not decode back to the body: the writer normalises
the lone LF to CRLF (and the claim's "decodes back to the body" fails). -/
theorem c2_counterexample :
    isASCII (List.replicate 77 97 ++ [10, 98]) = true ∧
    (writeTextPart (List.replicate 77 97 ++ [10, 98])).1 = "quoted-printable" ∧
    qpDecode ((writeTextPart (List.replicate 77 97 ++ [10, 98])).2) ≠
      List.replicate 77 97 ++ [10, 98] ∧
    qpDecode ((writeTextPart (List.replicate 77 97 ++ [10, 98])).2) =
      lfToCrlf (List.replicate 77 97 ++ [10, 98]) := by
  refine ⟨by decide, by decide, by decide, by decide⟩

/-- C2 witness: at the non-ASCII body 0x48 0xC3 0xA9, the quoted-printable
branch of the claim theorem applies and decode recovers the body. -/
theorem c2_text_encoding_witness :
    (writeTextPart [72, 195, 169]).1 = "quoted-printable" ∧
    qpDecode ((writeTextPart [72, 195, 169]).2) = lfToCrlf [72, 195, 169] ∧
    writeTextPart [104, 105] = ("7bit", [104, 105]) := by
  obtain ⟨h1, _, _, h4⟩ := (c2_text_encoding [72, 195, 169]).2 (Or.inl (by decide))
  exact ⟨h1, h4 (by decide), (c2_text_encoding [104, 105]).1 (by decide) (by decide)⟩
end Pigeon
